import Mathlib

/-!
Verification of the registry-and-link core of src/fileshaare.py against its
natural-language specification.  The Python source is shallowly embedded:
each SQL statement becomes a pure function on an explicit database state, a
transaction block becomes a single atomic state transition, and the
concurrency hazards (serial allocation, the upload semaphore, link-code
retry) are modelled as explicit step relations / event traces.
-/

namespace FileStore

/-! ## Link-code generation

Embedding of the function at src/fileshaare.py:143-144:

  def generate_id() -> str:
      return base64.urlsafe_b64encode(uuid.uuid4().bytes).rstrip(b'=').decode('utf-8')[:12]

uuid.uuid4().bytes is a 16-byte (128-bit) random value; we model the byte
source as an explicit argument (a list of 16 naturals below 256), and
transcribe urlsafe_b64encode, rstrip of the '=' padding, and the take of
the first 12 characters.
-/
/-- The URL-safe base64 alphabet used by base64.urlsafe_b64encode. -/
def b64Alphabet : List Char :=
  "ABCDEFGHIJKLMNOPQRSTUVWXYZabcdefghijklmnopqrstuvwxyz0123456789-_".toList

/-- The base64 digit for a 6-bit value. -/
def b64Char (n : Nat) : Char := b64Alphabet.getD n '='

/-- base64 encoding of a byte list, with '=' padding, processing three input
bytes into four output characters exactly as base64.urlsafe_b64encode does. -/
def b64EncodeBytes : List Nat → List Char
  | b1 :: b2 :: b3 :: rest =>
      b64Char (b1 / 4) :: b64Char ((b1 % 4) * 16 + b2 / 16) ::
      b64Char ((b2 % 16) * 4 + b3 / 64) :: b64Char (b3 % 64) :: b64EncodeBytes rest
  | [b1, b2] => [b64Char (b1 / 4), b64Char ((b1 % 4) * 16 + b2 / 16), b64Char ((b2 % 16) * 4), '=']
  | [b1] => [b64Char (b1 / 4), b64Char ((b1 % 4) * 16), '=', '=']
  | [] => []

/-- Python's bytes.rstrip(b'='): remove trailing '=' characters. -/
def dropPadEnd (l : List Char) : List Char :=
  (l.reverse.dropWhile (fun c => c = '=')).reverse

/-- Embedding of generate_id (src/fileshaare.py:143-144), parameterised by the
16 random bytes produced by uuid.uuid4().bytes. -/
def generate_id (bytes : List Nat) : List Char :=
  (dropPadEnd (b64EncodeBytes bytes)).take 12

/-- LIKE pattern matching on (already case-folded) character lists:
'%' matches any sequence (equivalently, the rest of the pattern matches some
tail of the target), '_' any one character, anything else itself. -/
def likeM : List Char → List Char → Bool
  | [], s => decide (s = [])
  | a :: p, s =>
    if a = '%' then s.tails.any (fun t => likeM p t)
    else
      match s with
      | [] => false
      | c :: t => (if a = '_' then true else decide (a = c)) && likeM p t

/-! ## Relational state

Embedding of the schema created by init_database (src/fileshaare.py:87-135):
tables groups, files, file_links (authorized_users and bot_settings do not
bear on the claims).  SERIAL primary keys are modelled by explicit next-id
counters; NULLable columns by Option.  The SQL counters total_files
(INTEGER) / total_size (BIGINT) / clicks (INTEGER) are signed, hence Int.
-/
structure GroupRow where
  id : Nat
  name : String
  ownerId : Nat
  totalFiles : Int
  totalSize : Int
  deriving DecidableEq, Repr

structure FileRow where
  id : Nat
  groupId : Nat
  serialNumber : Nat
  uniqueId : String
  fileName : String
  fileType : String
  fileSize : Nat
  uploaderId : Nat
  storageMessageId : Nat
  deriving DecidableEq, Repr

inductive LinkType
  | file
  | group
  deriving DecidableEq, Repr

structure LinkRow where
  id : Nat
  linkCode : String
  fileId : Option Nat
  groupId : Option Nat
  linkType : LinkType
  ownerId : Nat
  clicks : Int
  isActive : Bool
  deriving DecidableEq, Repr

structure DB where
  groups : List GroupRow
  files : List FileRow
  links : List LinkRow
  nextGroupId : Nat
  nextFileId : Nat
  nextLinkId : Nat
  deriving DecidableEq, Repr

def emptyDB : DB := ⟨[], [], [], 1, 1, 1⟩

/-- SELECT COALESCE(MAX(serial_number), 0) + 1 FROM files WHERE group_id = $1
(src/fileshaare.py:705). -/
def nextSerial (files : List FileRow) (gid : Nat) : Nat :=
  ((files.filter (fun f => f.groupId = gid)).map (fun f => f.serialNumber)).foldl max 0 + 1

/-- The file rows of one group. -/
def rowsIn (files : List FileRow) (gid : Nat) : List FileRow :=
  files.filter (fun f => f.groupId = gid)

/-- COUNT of a group's file rows. -/
def countIn (files : List FileRow) (gid : Nat) : Nat := (rowsIn files gid).length

/-- SUM of file_size over a group's file rows. -/
def sumIn (files : List FileRow) (gid : Nat) : Int :=
  ((rowsIn files gid).map (fun f => (f.fileSize : Int))).sum

structure FileMeta where
  uniqueId : String
  fileName : String
  fileType : String
  fileSize : Nat
  uploaderId : Nat
  deriving DecidableEq, Repr

/-- The INSERT + stats UPDATE of _process_file_upload (src/fileshaare.py:707-717)
for an already computed serial: it fails on a constraint violation (FK on
group_id, UNIQUE(unique_id), UNIQUE(group_id, serial_number)), which aborts
and rolls back the enclosing transaction. -/
def uploadInsertPhase (db : DB) (gid : Nat) (m : FileMeta) (msgId serial : Nat) :
    Except Unit DB :=
  if ¬ db.groups.any (fun g => g.id = gid) then .error ()
  else if db.files.any (fun f => f.uniqueId = m.uniqueId) then .error ()
  else if db.files.any (fun f => f.groupId = gid ∧ f.serialNumber = serial) then .error ()
  else .ok
    { db with
      files := db.files ++
        [⟨db.nextFileId, gid, serial, m.uniqueId, m.fileName, m.fileType,
          m.fileSize, m.uploaderId, msgId⟩],
      groups := db.groups.map (fun g =>
        if g.id = gid then
          { g with totalFiles := g.totalFiles + 1,
                   totalSize := g.totalSize + (m.fileSize : Int) }
        else g),
      nextFileId := db.nextFileId + 1 }

/-- The database transaction of _process_file_upload (src/fileshaare.py:702-717):
inside one conn.transaction(), read COALESCE(MAX(serial_number),0)+1, then
INSERT the file row and UPDATE the group's total_files/total_size. -/
def uploadTx (db : DB) (gid : Nat) (m : FileMeta) (msgId : Nat) :
    Except Unit (DB × Nat) :=
  let serial := nextSerial db.files gid
  (uploadInsertPhase db gid m msgId serial).map (fun db' => (db', serial))

/-- The join of _perform_file_delete / getlink_handler
(src/fileshaare.py:837-841 and 338-343):
SELECT ... FROM files f JOIN groups g ON f.group_id = g.id
WHERE g.owner_id = $1 AND g.name = $2 AND f.serial_number = $3. -/
def fileGroupJoin (db : DB) (owner : Nat) (gname : String) (serial : Nat) :
    List (FileRow × GroupRow) :=
  db.files.flatMap (fun f =>
    (db.groups.filter (fun g =>
      f.groupId = g.id ∧ g.ownerId = owner ∧ g.name = gname ∧
        f.serialNumber = serial)).map (fun g => (f, g)))

/-- The transaction of _perform_file_delete (src/fileshaare.py:835-850):
fetch the row; if absent do nothing; else DELETE FROM files WHERE id = $1
(ON DELETE CASCADE removes the file's links) and UPDATE the group's
total_files/total_size. -/
def fileDeleteTx (db : DB) (owner : Nat) (gname : String) (serial : Nat) : DB :=
  match (fileGroupJoin db owner gname serial).head? with
  | none => db
  | some (f, g) =>
    { db with
      files := db.files.filter (fun x => ¬ x.id = f.id),
      links := db.links.filter (fun l => ¬ l.fileId = some f.id),
      groups := db.groups.map (fun x =>
        if x.id = g.id then
          { x with totalFiles := x.totalFiles - 1,
                   totalSize := x.totalSize - (f.fileSize : Int) }
        else x) }

/-- The transaction of _perform_group_delete (src/fileshaare.py:865-874):
collect the storage_message_ids of the member files, then
DELETE FROM groups WHERE owner_id = $1 AND name = $2; ON DELETE CASCADE
removes the member files and every link whose file_id or group_id referenced
a deleted row. -/
def groupDeleteTx (db : DB) (owner : Nat) (gname : String) : DB × List Nat :=
  let gids := (db.groups.filter (fun g => g.ownerId = owner ∧ g.name = gname)).map
    (fun g => g.id)
  let removedFiles := db.files.filter (fun f => f.groupId ∈ gids)
  ({ db with
      groups := db.groups.filter (fun g => ¬ (g.ownerId = owner ∧ g.name = gname)),
      files := db.files.filter (fun f => ¬ f.groupId ∈ gids),
      links := db.links.filter (fun l =>
        ¬ ((∃ gid ∈ gids, l.groupId = some gid) ∨
            ∃ f ∈ removedFiles, l.fileId = some f.id)) },
    removedFiles.map (fun f => f.storageMessageId))

/-- The INSERT of _create_new_group (src/fileshaare.py:740-746): the handler
rejects an empty or over-50-character name before the INSERT; the INSERT
fails on the UNIQUE(name, owner_id) constraint. -/
def createGroupTx (db : DB) (owner : Nat) (gname : String) : Except Unit DB :=
  if gname.length = 0 ∨ gname.length > 50 then .error ()
  else if db.groups.any (fun g => g.name = gname ∧ g.ownerId = owner) then .error ()
  else .ok
    { db with
      groups := db.groups ++ [⟨db.nextGroupId, gname, owner, 0, 0⟩],
      nextGroupId := db.nextGroupId + 1 }

/-- One INSERT attempt of _create_link (src/fileshaare.py:758-764): fails on
the UNIQUE(link_code) collision (caught as UniqueViolationError) or on a
foreign-key violation; otherwise appends the link row with clicks = 0 and
is_active defaulted TRUE. -/
def linkInsertTx (db : DB) (code : String) (fid : Option Nat) (gid : Option Nat)
    (ltype : LinkType) (owner : Nat) : Except Unit DB :=
  if db.links.any (fun l => l.linkCode = code) then .error ()
  else if fid.any (fun i => ¬ db.files.any (fun f => f.id = i)) then .error ()
  else if gid.any (fun i => ¬ db.groups.any (fun g => g.id = i)) then .error ()
  else .ok
    { db with
      links := db.links ++ [⟨db.nextLinkId, code, fid, gid, ltype, owner, 0, true⟩],
      nextLinkId := db.nextLinkId + 1 }

/-- getlink_handler (src/fileshaare.py:336-350): look the file up by
(owner, group name, serial); when found, _create_link(file_id, None, 'file').
A code collision makes _create_link retry with a fresh code; viewed at the
state level one operation either inserts one link row or leaves the state
unchanged. -/
def fileLinkOp (db : DB) (code : String) (owner : Nat) (gname : String)
    (serial : Nat) : DB :=
  match (fileGroupJoin db owner gname serial).head? with
  | none => db
  | some (f, _) =>
    match linkInsertTx db code (some f.id) none .file owner with
    | .ok db' => db'
    | .error _ => db

/-- getgrouplink_handler (src/fileshaare.py:356-375): SELECT id FROM groups
WHERE owner_id = $1 AND name = $2; when found, _create_link(None, group_id,
'group'). -/
def groupLinkOp (db : DB) (code : String) (owner : Nat) (gname : String) : DB :=
  match db.groups.find? (fun g => g.ownerId = owner ∧ g.name = gname) with
  | none => db
  | some g =>
    match linkInsertTx db code none (some g.id) .group owner with
    | .ok db' => db'
    | .error _ => db

/-- revoke_link_handler (src/fileshaare.py:427):
DELETE FROM file_links WHERE link_code = $1 AND owner_id = $2. -/
def revokeLinkTx (db : DB) (code : String) (owner : Nat) : DB :=
  { db with
    links := db.links.filter (fun l => ¬ (l.linkCode = code ∧ l.ownerId = owner)) }

/-- SELECT * FROM file_links WHERE link_code = $1 AND is_active = TRUE
(src/fileshaare.py:638, fetchrow). -/
def findActiveLink (db : DB) (code : String) : Option LinkRow :=
  db.links.find? (fun l => l.linkCode = code ∧ l.isActive)

/-- UPDATE file_links SET clicks = clicks + 1 WHERE id = $1
(src/fileshaare.py:644) — a single atomic read-modify-write statement. -/
def bumpClicks (db : DB) (lid : Nat) : DB :=
  { db with
    links := db.links.map (fun l =>
      if l.id = lid then { l with clicks := l.clicks + 1 } else l) }

/-- SELECT f.* ... WHERE f.id = $1 for a file link (src/fileshaare.py:647-651). -/
def fileTargetLookup (db : DB) (l : LinkRow) : Option FileRow :=
  db.files.find? (fun f => some f.id = l.fileId)

/-- Ordered insertion into a sorted list (used to model SQL ORDER BY). -/
def insertLe {α : Type} (le : α → α → Bool) (a : α) : List α → List α
  | [] => [a]
  | b :: t => if le a b then a :: b :: t else b :: insertLe le a t

/-- Insertion sort: the model of SQL ORDER BY (any sort respecting the
comparison is an admissible model of the row order). -/
def sortByLe {α : Type} (le : α → α → Bool) (l : List α) : List α :=
  l.foldr (insertLe le) []

/-- SELECT * FROM files WHERE group_id = $1 ORDER BY serial_number for a group
link (src/fileshaare.py:666). -/
def groupFilesLookup (db : DB) (l : LinkRow) : List FileRow :=
  sortByLe (fun a b => a.serialNumber ≤ b.serialNumber)
    (db.files.filter (fun f => some f.groupId = l.groupId))

/-- What a link resolution delivers to the requester. -/
inductive Resolved
  | notFound
  | fileDesc (f : FileRow)
  | fileMissing
  | groupDesc (files : List FileRow)
  deriving DecidableEq, Repr

/-- _handle_shared_link (src/fileshaare.py:635-689).  The connection block has
no transaction: the link fetch, the clicks UPDATE and the target lookup are
three separately committed statements; each is modelled as one atomic step
below (see resolveLinkStmts for the statement grouping). -/
def resolveLink (db : DB) (code : String) : DB × Resolved :=
  match findActiveLink db code with
  | none => (db, .notFound)
  | some l =>
    let db1 := bumpClicks db l.id
    match l.linkType with
    | .file =>
      match fileTargetLookup db1 l with
      | some f => (db1, .fileDesc f)
      | none => (db1, .fileMissing)
    | .group => (db1, .groupDesc (groupFilesLookup db1 l))

/-! ## Operation sequences over the store -/
inductive Op
  | createGroup (owner : Nat) (gname : String)
  | upload (gid : Nat) (m : FileMeta) (msgId : Nat)
  | deleteFile (owner : Nat) (gname : String) (serial : Nat)
  | deleteGroup (owner : Nat) (gname : String)
  | fileLink (code : String) (owner : Nat) (gname : String) (serial : Nat)
  | groupLink (code : String) (owner : Nat) (gname : String)
  | revoke (code : String) (owner : Nat)
  | resolve (code : String)
  deriving DecidableEq, Repr

/-- Apply one operation; a failed (rolled-back) transaction leaves the state
unchanged, as every handler catches the raised error. -/
def applyOp (db : DB) : Op → DB
  | .createGroup o n =>
    match createGroupTx db o n with
    | .ok db' => db'
    | .error _ => db
  | .upload gid m msg =>
    match uploadTx db gid m msg with
    | .ok (db', _) => db'
    | .error _ => db
  | .deleteFile o n s => fileDeleteTx db o n s
  | .deleteGroup o n => (groupDeleteTx db o n).1
  | .fileLink c o n s => fileLinkOp db c o n s
  | .groupLink c o n => groupLinkOp db c o n
  | .revoke c o => revokeLinkTx db c o
  | .resolve c => (resolveLink db c).1

def runOps (db : DB) (ops : List Op) : DB := ops.foldl applyOp db

/-- The well-formedness the schema's keys and constraints guarantee, plus the
aggregate-counter invariant. -/
structure Inv (db : DB) : Prop where
  groupIdLt : ∀ g ∈ db.groups, g.id < db.nextGroupId
  groupIdNodup : (db.groups.map (fun g => g.id)).Nodup
  fileIdLt : ∀ f ∈ db.files, f.id < db.nextFileId
  fileIdNodup : (db.files.map (fun f => f.id)).Nodup
  fileFk : ∀ f ∈ db.files, ∃ g ∈ db.groups, g.id = f.groupId
  linkIdLt : ∀ l ∈ db.links, l.id < db.nextLinkId
  linkIdNodup : (db.links.map (fun l => l.id)).Nodup
  linkCodeNodup : (db.links.map (fun l => l.linkCode)).Nodup
  linkFileFk : ∀ l ∈ db.links, ∀ i, l.fileId = some i → ∃ f ∈ db.files, f.id = i
  linkGroupFk : ∀ l ∈ db.links, ∀ i, l.groupId = some i → ∃ g ∈ db.groups, g.id = i
  linkTyped : ∀ l ∈ db.links,
    (l.linkType = LinkType.file → ∃ i, l.fileId = some i) ∧
      (l.linkType = LinkType.group → ∃ i, l.groupId = some i)
  counters : ∀ g ∈ db.groups,
    g.totalFiles = (countIn db.files g.id : Int) ∧ g.totalSize = sumIn db.files g.id

/-! ## Statement / transaction grouping

Which SQL statements each handler issues, and how they are grouped into
transactions.  A block is the set of statements executed atomically: the
statements under one conn.transaction() form one block; a statement executed
on a bare pool connection is a block of its own (asyncpg auto-commits it). -/
inductive Stmt
  | selectNextSerial
  | insertFileRow
  | updateGroupStatsAdd
  | selectFileJoin
  | deleteFileRow
  | updateGroupStatsSub
  | selectGroupMsgIds
  | deleteGroupRow
  | selectActiveLink
  | updateLinkClicks
  | selectFileTarget
  | selectGroupFiles
  deriving DecidableEq, Repr

/-- _process_file_upload (src/fileshaare.py:702-717): async with
conn.transaction() around the serial read, the INSERT and the stats UPDATE. -/
def uploadStmtBlocks : List (List Stmt) :=
  [[.selectNextSerial, .insertFileRow, .updateGroupStatsAdd]]

/-- _perform_file_delete (src/fileshaare.py:835-850): async with
conn.transaction() around the fetch, the DELETE and the stats UPDATE. -/
def fileDeleteStmtBlocks : List (List Stmt) :=
  [[.selectFileJoin, .deleteFileRow, .updateGroupStatsSub]]

/-- _perform_group_delete (src/fileshaare.py:865-874): one transaction around
the message-id collection and the group DELETE. -/
def groupDeleteStmtBlocks : List (List Stmt) :=
  [[.selectGroupMsgIds, .deleteGroupRow]]

/-- _handle_shared_link (src/fileshaare.py:637-666): a bare pool connection
with no transaction block, so the link fetch, the clicks UPDATE and the
target lookup each auto-commit separately. -/
def resolveLinkStmts (t : LinkType) : List (List Stmt) :=
  [[.selectActiveLink], [.updateLinkClicks],
    [match t with
     | .file => .selectFileTarget
     | .group => .selectGroupFiles]]

/-- Two statements execute in the same transaction. -/
def inSameBlock (blocks : List (List Stmt)) (s₁ s₂ : Stmt) : Prop :=
  ∃ b ∈ blocks, s₁ ∈ b ∧ s₂ ∈ b

/-! ## Interleaved serial allocation (the MAX()+1 race)

The serial read at src/fileshaare.py:705 is a plain SELECT COALESCE(MAX..)
with no FOR UPDATE / advisory lock: under READ COMMITTED it takes no lock, so
two concurrent upload transactions into the same group may both read the same
maximum before either insert commits.  We model each upload as two atomic
phases — the serial read, and the insert+update commit (which enforces the
UNIQUE(group_id, serial_number) constraint) — and interleave them. -/
inductive RaceStep
  | readA
  | readB
  | commitA
  | commitB
  deriving DecidableEq, Repr

structure RaceState where
  db : DB
  gotA : Option Nat
  gotB : Option Nat
  resA : Option Bool
  resB : Option Bool
  deriving DecidableEq, Repr

def raceStep (gid : Nat) (mA mB : FileMeta) (msgA msgB : Nat)
    (st : RaceState) : RaceStep → RaceState
  | .readA => { st with gotA := some (nextSerial st.db.files gid) }
  | .readB => { st with gotB := some (nextSerial st.db.files gid) }
  | .commitA =>
    match st.gotA with
    | none => st
    | some s =>
      match uploadInsertPhase st.db gid mA msgA s with
      | .ok db' => { st with db := db', resA := some true }
      | .error _ => { st with resA := some false }
  | .commitB =>
    match st.gotB with
    | none => st
    | some s =>
      match uploadInsertPhase st.db gid mB msgB s with
      | .ok db' => { st with db := db', resB := some true }
      | .error _ => { st with resB := some false }

def runRace (gid : Nat) (mA mB : FileMeta) (msgA msgB : Nat) (db : DB)
    (sched : List RaceStep) : RaceState :=
  sched.foldl (raceStep gid mA mB msgA msgB) ⟨db, none, none, none, none⟩

/-- A store holding one empty group (id 1, name "Movies", owner 1). -/
def oneGroupDB : DB := ⟨[⟨1, "Movies", 1, 0, 0⟩], [], [], 2, 1, 1⟩

def metaA : FileMeta := ⟨"uidA", "fileA", "document", 10, 1⟩

def metaB : FileMeta := ⟨"uidB", "fileB", "document", 20, 1⟩

/-! ## Link-code collision retry (_create_link, src/fileshaare.py:755-767)

_create_link generates a code, attempts the INSERT, and on
UniqueViolationError recursively calls itself with no retry counter and no
failure result.  We model the successive generate_id outputs as an explicit
candidate list; the result carries how many collision retries occurred. -/
def createLinkRetry (taken : List String) : List String → Option (String × Nat)
  | [] => none
  | c :: rest =>
    if taken.any (fun x => x = c) then
      (createLinkRetry taken rest).map (fun r => (r.1, r.2 + 1))
    else some (c, 0)

/-! ## Upload admission gate and rate-limit backoff
(_process_file_upload, src/fileshaare.py:691-733)

The whole body runs inside async with self.upload_semaphore.  On
FloodWaitError (the rate-limit signal with retry_after) the handler sleeps
and then calls _process_file_upload recursively — still inside the
semaphore block, whose release (the implicit end of the with-block) only
happens after the recursive call returns.  We record the event trace of one
upload, driven by the sequence of forward-call outcomes. -/
inductive ForwardOutcome
  | ok (msgId : Nat)
  | rateLimited (retryAfter : Nat)
  | failed
  deriving DecidableEq, Repr

inductive UploadEv
  | acquire
  | forwardAttempt
  | dbWrite
  | sleepBackoff (sec : Nat)
  | release
  deriving DecidableEq, Repr

/-- The event trace of _process_file_upload for a given outcome sequence. -/
def uploadEvents : List ForwardOutcome → List UploadEv
  | [] => []
  | .ok _ :: _ => [.acquire, .forwardAttempt, .dbWrite, .release]
  | .rateLimited s :: rest =>
    [.acquire, .forwardAttempt, .sleepBackoff s] ++ uploadEvents rest ++ [.release]
  | .failed :: _ => [.acquire, .forwardAttempt, .release]

/-- The database effect of _process_file_upload: only a successful forward
reaches the insert transaction; a rate-limited attempt retries recursively;
any other failure is caught and writes nothing. -/
def uploadDBEffect (db : DB) (gid : Nat) (m : FileMeta) :
    List ForwardOutcome → DB
  | [] => db
  | .ok msgId :: _ =>
    match uploadTx db gid m msgId with
    | .ok (db', _) => db'
    | .error _ => db
  | .rateLimited _ :: rest => uploadDBEffect db gid m rest
  | .failed :: _ => db

/-- Is some sleepBackoff event executed while the semaphore is held (more
acquires than releases strictly before it)? -/
def sleepWhileHeld (tr : List UploadEv) : Bool :=
  (List.range tr.length).any (fun i =>
    (match tr.getD i .release with
     | .sleepBackoff _ => true
     | _ => false) &&
    decide (((tr.take i).filter (fun e => e = .acquire)).length >
      ((tr.take i).filter (fun e => e = .release)).length))

/-- Number of forward attempts in a trace. -/
def forwardAttemptCount (tr : List UploadEv) : Nat :=
  (tr.filter (fun e => e = .forwardAttempt)).length

/-- MAX_FILE_SIZE = 2000 * 1024 * 1024 (src/fileshaare.py:43). -/
def MAX_FILE_SIZE : Nat := 2000 * 1024 * 1024

/-- The size gate of file_handler (src/fileshaare.py:557-568): with an upload
group selected, a file whose size exceeds MAX_FILE_SIZE is answered with an
error message only — _process_file_upload (forward + insert) is never
reached; otherwise the upload proceeds. -/
def fileHandler (outcomes : List ForwardOutcome) (db : DB)
    (uploadGroupId : Option Nat) (m : FileMeta) : DB × List UploadEv :=
  match uploadGroupId with
  | none => (db, [])
  | some gid =>
    if m.fileSize > MAX_FILE_SIZE then (db, [])
    else (uploadDBEffect db gid m outcomes, uploadEvents outcomes)

/-! ## Two concurrent resolutions of one link

_handle_shared_link's three statements each commit separately; the clicks
UPDATE is a single atomic read-modify-write.  Each resolver is a small
process: pc 0 = about to fetch the link row, pc 1 = about to run the clicks
UPDATE, pc 2 = about to run the target lookup (read-only), pc 3 = done. -/
structure RProc where
  pc : Nat
  target : Option Nat
  deriving DecidableEq, Repr

def rstep (code : String) (db : DB) (p : RProc) : DB × RProc :=
  match p.pc with
  | 0 =>
    match findActiveLink db code with
    | none => (db, ⟨3, none⟩)
    | some l => (db, ⟨1, some l.id⟩)
  | 1 =>
    match p.target with
    | some i => (bumpClicks db i, ⟨2, p.target⟩)
    | none => (db, ⟨3, none⟩)
  | 2 => (db, ⟨3, p.target⟩)
  | _ => (db, p)

/-- Run two resolver processes for the same code under an arbitrary
interleaving: true schedules a step of the first process, false of the
second. -/
def runTwo (code : String) (db : DB) (p1 p2 : RProc) (sched : List Bool) :
    DB × RProc × RProc :=
  match sched with
  | [] => (db, p1, p2)
  | b :: rest =>
    if b then
      let s := rstep code db p1
      runTwo code s.1 s.2 p2 rest
    else
      let s := rstep code db p2
      runTwo code s.1 p1 s.2 rest

/-- The clicks column of the link row with a given id (0 if absent). -/
def clicksOf (db : DB) (lid : Nat) : Int :=
  ((db.links.find? (fun l => l.id = lid)).map (fun l => l.clicks)).getD 0

/-- Adding k clicks to the link row with a given id (the k-fold composite of
the clicks UPDATE). -/
def addClicksK (lid : Nat) (k : Int) (x : LinkRow) : LinkRow :=
  if x.id = lid then { x with clicks := x.clicks + k } else x

/-- Whether a resolver process has already executed its clicks UPDATE. -/
def cntOf (p : RProc) : Nat := if 2 ≤ p.pc then 1 else 0

/-- Well-formed resolver states while an active link with row id lid exists:
before the fetch the target is unknown; afterwards it is that row id. -/
def wfP (lid : Nat) (p : RProc) : Prop :=
  (p.pc = 0 ∧ p.target = none) ∨ (1 ≤ p.pc ∧ p.pc ≤ 3 ∧ p.target = some lid)

/-- A store with one group, one file (id 7) and one active file link for it. -/
def linkDB : DB :=
  ⟨[⟨1, "g", 1, 1, 5⟩], [⟨7, 1, 1, "u", "n", "document", 5, 1, 50⟩],
    [⟨1, "code123", some 7, none, .file, 1, 0, true⟩], 2, 8, 2⟩

/-- The store after uploading metaA (10 bytes) into oneGroupDB's group 1. -/
def uploadedOneDB : DB :=
  ⟨[⟨1, "Movies", 1, 1, 10⟩], [⟨1, 1, 1, "uidA", "fileA", "document", 10, 1, 100⟩],
    [], 2, 2, 1⟩

/-! ## Theorems -/

lemma b64Char_mem {n : Nat} (h : n < 64) : b64Char n ∈ b64Alphabet := by
  have hlen : b64Alphabet.length = 64 := by decide
  rw [b64Char, List.getD_eq_getElem b64Alphabet '=' (by omega)]
  exact List.getElem_mem _

lemma pad_not_mem_b64Alphabet : ('=' : Char) ∉ b64Alphabet := by decide

lemma b64Char_ne_pad {n : Nat} (h : n < 64) : b64Char n ≠ '=' := by
  intro he
  exact pad_not_mem_b64Alphabet (he ▸ b64Char_mem h)

/-- On inputs whose length is a multiple of three, the encoder emits
4 characters per 3 bytes, all drawn from the base64 alphabet. -/
lemma b64EncodeBytes_chunk3 :
    ∀ l : List Nat, l.length % 3 = 0 → (∀ b ∈ l, b < 256) →
      (b64EncodeBytes l).length = l.length / 3 * 4 ∧
        ∀ c ∈ b64EncodeBytes l, c ∈ b64Alphabet := by
  intro l
  induction l using b64EncodeBytes.induct with
  | case1 b1 b2 b3 rest ih =>
    intro hmod hlt
    have hmod' : rest.length % 3 = 0 := by
      simp only [List.length_cons] at hmod; omega
    have hlt' : ∀ b ∈ rest, b < 256 := fun b hb => hlt b (by simp [hb])
    obtain ⟨ihlen, ihmem⟩ := ih hmod' hlt'
    have h1 : b1 < 256 := hlt b1 (by simp)
    have h2 : b2 < 256 := hlt b2 (by simp)
    have h3 : b3 < 256 := hlt b3 (by simp)
    constructor
    · simp only [b64EncodeBytes, List.length_cons, ihlen]; omega
    · intro c hc
      simp only [b64EncodeBytes, List.mem_cons] at hc
      rcases hc with h | h | h | h | h
      · exact h ▸ b64Char_mem (by omega)
      · exact h ▸ b64Char_mem (by omega)
      · exact h ▸ b64Char_mem (by omega)
      · exact h ▸ b64Char_mem (by omega)
      · exact ihmem c h
  | case2 b1 b2 => intro hmod _; simp at hmod
  | case3 b1 => intro hmod _; simp at hmod
  | case4 => intro _ _; exact ⟨rfl, by simp [b64EncodeBytes]⟩

/-- Appending a single residual byte to a 3-aligned block list appends the
two data characters and the "==" padding. -/
lemma b64EncodeBytes_append_single :
    ∀ l : List Nat, ∀ b : Nat, l.length % 3 = 0 →
      b64EncodeBytes (l ++ [b]) =
        b64EncodeBytes l ++ [b64Char (b / 4), b64Char ((b % 4) * 16), '=', '='] := by
  intro l
  induction l using b64EncodeBytes.induct with
  | case1 b1 b2 b3 rest ih =>
    intro b hmod
    have hmod' : rest.length % 3 = 0 := by
      simp only [List.length_cons] at hmod; omega
    simp only [List.cons_append, b64EncodeBytes, List.append_eq, ih b hmod']
  | case2 b1 b2 => intro b hmod; simp at hmod
  | case3 b1 => intro b hmod; simp at hmod
  | case4 => intro b _; rfl

lemma dropPadEnd_append_pad (body : List Char) (c1 c2 : Char)
    (_h1 : c1 ≠ '=') (h2 : c2 ≠ '=') :
    dropPadEnd (body ++ [c1, c2, '=', '=']) = body ++ [c1, c2] := by
  have : (body ++ [c1, c2, '=', '=']).reverse = '=' :: '=' :: c2 :: c1 :: body.reverse := by
    simp
  rw [dropPadEnd, this]
  rw [List.dropWhile_cons_of_pos (by simp), List.dropWhile_cons_of_pos (by simp),
    List.dropWhile_cons_of_neg (by simpa using h2)]
  simp

/-- For any 16-byte input, generate_id yields exactly 12 characters of the
URL-safe base64 alphabet, with no '=' padding character. -/
lemma generate_id_shape (bytes : List Nat) (hlen : bytes.length = 16)
    (hb : ∀ b ∈ bytes, b < 256) :
    (generate_id bytes).length = 12 ∧
      ∀ c ∈ generate_id bytes, c ∈ b64Alphabet ∧ c ≠ '=' := by
  have hne : bytes ≠ [] := by intro h; rw [h] at hlen; simp at hlen
  obtain ⟨l, b, rfl⟩ : ∃ l b, bytes = l ++ [b] :=
    ⟨bytes.dropLast, bytes.getLast hne, (List.dropLast_append_getLast hne).symm⟩
  have hllen : l.length = 15 := by
    simpa [List.length_append] using hlen
  have hlb : ∀ x ∈ l, x < 256 := fun x hx => hb x (by simp [hx])
  have hblt : b < 256 := hb b (by simp)
  obtain ⟨hElen, hEmem⟩ := b64EncodeBytes_chunk3 l (by omega) hlb
  have henc := b64EncodeBytes_append_single l b (by omega)
  have hc1 : b64Char (b / 4) ≠ '=' := b64Char_ne_pad (by omega)
  have hc2 : b64Char ((b % 4) * 16) ≠ '=' := b64Char_ne_pad (by omega)
  have hdrop : dropPadEnd (b64EncodeBytes (l ++ [b])) =
      b64EncodeBytes l ++ [b64Char (b / 4), b64Char ((b % 4) * 16)] := by
    rw [henc]
    have : b64EncodeBytes l ++ [b64Char (b / 4), b64Char ((b % 4) * 16), '=', '='] =
        b64EncodeBytes l ++ [b64Char (b / 4), b64Char ((b % 4) * 16)] ++ ['=', '='] := by
      simp
    rw [show b64EncodeBytes l ++ [b64Char (b / 4), b64Char ((b % 4) * 16), '=', '='] =
        b64EncodeBytes l ++ ([b64Char (b / 4)] ++ ([b64Char ((b % 4) * 16)] ++ ['=', '='])) by simp]
    rw [show b64EncodeBytes l ++ ([b64Char (b / 4)] ++ ([b64Char ((b % 4) * 16)] ++ ['=', '='])) =
        b64EncodeBytes l ++ [b64Char (b / 4), b64Char ((b % 4) * 16), '=', '='] by simp]
    exact dropPadEnd_append_pad _ _ _ hc1 hc2
  constructor
  · rw [generate_id, hdrop]
    rw [List.length_take, List.length_append, hElen, hllen]
    simp
  · intro c hc
    rw [generate_id, hdrop] at hc
    have hc' := List.take_subset 12 _ hc
    rw [List.mem_append] at hc'
    have hmem : c ∈ b64Alphabet := by
      rcases hc' with h | h
      · exact hEmem c h
      · simp only [List.mem_cons, List.not_mem_nil, or_false] at h
        rcases h with rfl | rfl
        · exact b64Char_mem (by omega)
        · exact b64Char_mem (by omega)
    exact ⟨hmem, fun he => pad_not_mem_b64Alphabet (he ▸ hmem)⟩

/-- A wildcard-free pattern matches exactly itself. -/
lemma likeM_exact :
    ∀ q : List Char, (∀ c ∈ q, c ≠ '%' ∧ c ≠ '_') →
      ∀ s : List Char, likeM q s = true ↔ q = s := by
  intro q
  induction q with
  | nil => intro _ s; cases s <;> simp [likeM]
  | cons a q' ih =>
    intro hq s
    have ha : a ≠ '%' ∧ a ≠ '_' := hq a (by simp)
    have hq' : ∀ c ∈ q', c ≠ '%' ∧ c ≠ '_' := fun c hc => hq c (by simp [hc])
    cases s with
    | nil => simp [likeM, ha.1]
    | cons c t =>
      simp only [likeM, if_neg ha.1, if_neg ha.2, Bool.and_eq_true, decide_eq_true_eq,
        ih hq' t, List.cons.injEq]

/-- Claim C1 (code evaluated at the failing input): two concurrent uploads
into one empty group, interleaved as read-read-commit-commit, both read
MAX()+1 = 1; the first commit succeeds with serial 1 and the second hits the
UNIQUE(group_id, serial_number) constraint and fails, so the serials are {1},
not {1,2} — there is no group-level lock serialising the computation.  Run
serially (transaction after transaction), the same two uploads do get serials
1 and 2. -/
theorem claim_C1_serial_race :
    (runRace 1 metaA metaB 100 101 oneGroupDB
        [.readA, .readB, .commitA, .commitB]).resA = some true ∧
    (runRace 1 metaA metaB 100 101 oneGroupDB
        [.readA, .readB, .commitA, .commitB]).resB = some false ∧
    ((runRace 1 metaA metaB 100 101 oneGroupDB
        [.readA, .readB, .commitA, .commitB]).db.files.map
      (fun f => f.serialNumber)) = [1] ∧
    ((runOps oneGroupDB [.upload 1 metaA 100, .upload 1 metaB 101]).files.map
      (fun f => f.serialNumber)) = [1, 2] := by
  decide

/-- Claim C3 (code evaluated at the failing input): with six consecutive
colliding codes, _create_link keeps retrying — six retries, beyond the
claimed bound of 5 — and then returns the seventh code; no LinkIssuanceFailed
is ever produced (the recursion has no counter and no failure outcome). -/
theorem claim_C3_unbounded_retry :
    createLinkRetry ["c0", "c1", "c2", "c3", "c4", "c5"]
        ["c0", "c1", "c2", "c3", "c4", "c5", "ok"] = some ("ok", 6) ∧
      5 < 6 := by
  decide

/-- Claim C4 (code evaluated at the failing input): on a rate-limit signal the
handler sleeps the retry-after duration while still holding its semaphore
slot (the async-with block is not exited before asyncio.sleep), and with five
consecutive rate limits it makes six forward attempts — the retries are not
bounded by 3 and no slot is released before a backoff sleep. -/
theorem claim_C4_slot_held_during_backoff :
    sleepWhileHeld (uploadEvents [.rateLimited 5, .ok 1]) = true ∧
      forwardAttemptCount
        (uploadEvents (List.replicate 5 (.rateLimited 1) ++ [.ok 1])) = 6 := by
  decide

/-- Claim C6 counterexample: in _handle_shared_link the clicks UPDATE and the
target lookup are separately auto-committed statements — no transaction of
the handler contains both, for either link type, refuting "executed in the
same transaction". -/
theorem claim_C6_counterexample :
    ¬ inSameBlock (resolveLinkStmts .file) .updateLinkClicks .selectFileTarget ∧
      ¬ inSameBlock (resolveLinkStmts .group) .updateLinkClicks .selectGroupFiles := by
  constructor
  · rintro ⟨b, hb, h1, h2⟩
    simp only [resolveLinkStmts, List.mem_cons, List.not_mem_nil, or_false] at hb
    rcases hb with rfl | rfl | rfl <;> simp_all
  · rintro ⟨b, hb, h1, h2⟩
    simp only [resolveLinkStmts, List.mem_cons, List.not_mem_nil, or_false] at hb
    rcases hb with rfl | rfl | rfl <;> simp_all

/-! ## Counting helpers -/
lemma mem_of_head?_eq {α : Type} {l : List α} {a : α} (h : l.head? = some a) :
    a ∈ l := by
  cases l with
  | nil => simp at h
  | cons b t =>
    simp only [List.head?_cons, Option.some.injEq] at h
    exact h ▸ List.mem_cons_self b t

lemma rowsIn_append (l₁ l₂ : List FileRow) (gid : Nat) :
    rowsIn (l₁ ++ l₂) gid = rowsIn l₁ gid ++ rowsIn l₂ gid := by
  simp [rowsIn, List.filter_append]

lemma countIn_append (l₁ l₂ : List FileRow) (gid : Nat) :
    countIn (l₁ ++ l₂) gid = countIn l₁ gid + countIn l₂ gid := by
  simp [countIn, rowsIn_append]

lemma sumIn_append (l₁ l₂ : List FileRow) (gid : Nat) :
    sumIn (l₁ ++ l₂) gid = sumIn l₁ gid + sumIn l₂ gid := by
  simp [sumIn, rowsIn_append]

lemma countIn_single (f : FileRow) (gid : Nat) :
    countIn [f] gid = if f.groupId = gid then 1 else 0 := by
  simp only [countIn, rowsIn, List.filter_cons, List.filter_nil]
  split <;> simp_all

lemma sumIn_single (f : FileRow) (gid : Nat) :
    sumIn [f] gid = if f.groupId = gid then (f.fileSize : Int) else 0 := by
  simp only [sumIn, rowsIn, List.filter_cons, List.filter_nil]
  split <;> simp_all

/-- With pairwise-distinct row ids, DELETE ... WHERE id = f.id removes exactly
the row f. -/
lemma filter_ne_id_eq_erase {l : List FileRow} {f : FileRow}
    (hnd : (l.map (fun x => x.id)).Nodup) (hf : f ∈ l) :
    l.filter (fun x => ¬ x.id = f.id) = l.erase f := by
  induction l with
  | nil => cases hf
  | cons a t ih =>
    simp only [List.map_cons, List.nodup_cons, List.mem_map] at hnd
    rcases List.mem_cons.mp hf with rfl | hft
    · rw [List.filter_cons, if_neg (by simp), List.erase_cons_head]
      exact List.filter_eq_self.mpr fun x hx => by
        simp only [decide_eq_true_eq]
        intro he
        exact hnd.1 ⟨x, hx, he⟩
    · have hne : ¬ a.id = f.id := fun he => hnd.1 ⟨f, hft, he.symm⟩
      have hanef : a ≠ f := fun he => hne (he ▸ rfl)
      rw [List.filter_cons, if_pos (by simpa using hne),
        List.erase_cons_tail (by simpa using hanef), ih hnd.2 hft]

lemma countIn_perm {l₁ l₂ : List FileRow} (h : l₁.Perm l₂) (gid : Nat) :
    countIn l₁ gid = countIn l₂ gid :=
  (h.filter _).length_eq

lemma sumIn_perm {l₁ l₂ : List FileRow} (h : l₁.Perm l₂) (gid : Nat) :
    sumIn l₁ gid = sumIn l₂ gid :=
  ((h.filter _).map _).sum_eq

lemma countIn_cons (f : FileRow) (l : List FileRow) (gid : Nat) :
    countIn (f :: l) gid = (if f.groupId = gid then 1 else 0) + countIn l gid := by
  simp only [countIn, rowsIn, List.filter_cons]
  split <;> simp_all [Nat.add_comm]

lemma sumIn_cons (f : FileRow) (l : List FileRow) (gid : Nat) :
    sumIn (f :: l) gid = (if f.groupId = gid then (f.fileSize : Int) else 0) + sumIn l gid := by
  simp only [sumIn, rowsIn, List.filter_cons]
  split <;> simp_all

lemma countIn_erase {l : List FileRow} {f : FileRow} (hf : f ∈ l) (gid : Nat) :
    countIn l gid = (if f.groupId = gid then 1 else 0) + countIn (l.erase f) gid := by
  rw [countIn_perm (List.perm_cons_erase hf) gid, countIn_cons]

lemma sumIn_erase {l : List FileRow} {f : FileRow} (hf : f ∈ l) (gid : Nat) :
    sumIn l gid = (if f.groupId = gid then (f.fileSize : Int) else 0) + sumIn (l.erase f) gid := by
  rw [sumIn_perm (List.perm_cons_erase hf) gid, sumIn_cons]

/-! ## MAX() characterisation -/
lemma le_foldl_max (L : List Nat) : ∀ a : Nat,
    a ≤ L.foldl max a ∧ ∀ x ∈ L, x ≤ L.foldl max a := by
  induction L with
  | nil => intro a; simp
  | cons b t ih =>
    intro a
    obtain ⟨h1, h2⟩ := ih (max a b)
    refine ⟨le_trans (le_max_left a b) h1, ?_⟩
    intro x hx
    rcases List.mem_cons.mp hx with rfl | hxt
    · exact le_trans (le_max_right a x) h1
    · exact h2 x hxt

lemma foldl_max_mem (L : List Nat) : ∀ a : Nat,
    L.foldl max a = a ∨ L.foldl max a ∈ L := by
  induction L with
  | nil => intro a; simp
  | cons b t ih =>
    intro a
    rcases ih (max a b) with h | h
    · rcases Nat.le_total a b with hab | hba
      · right
        rw [List.foldl_cons, h, Nat.max_eq_right hab]
        exact List.mem_cons_self b t
      · left
        rw [List.foldl_cons, h, Nat.max_eq_left hba]
    · right
      exact List.mem_cons_of_mem b h

/-- Claim C5: a successful insert assigns serial 1 into an empty group and
max+1 into a nonempty one, and in the same transaction adds one to the
group's total_files and the file's size to its total_size; the serial read,
the INSERT and the stats UPDATE share one transaction block. -/
theorem claim_C5_insert_serial_and_counters
    (db : DB) (gid : Nat) (m : FileMeta) (msgId : Nat) (db' : DB) (serial : Nat)
    (hok : uploadTx db gid m msgId = .ok (db', serial)) :
    (rowsIn db.files gid = [] → serial = 1) ∧
    (rowsIn db.files gid ≠ [] →
      ∃ mx ∈ (rowsIn db.files gid).map (fun f => f.serialNumber),
        (∀ s ∈ (rowsIn db.files gid).map (fun f => f.serialNumber), s ≤ mx) ∧
          serial = mx + 1) ∧
    (∀ g ∈ db.groups, g.id = gid →
      ∃ g' ∈ db'.groups, g'.id = gid ∧
        g'.totalFiles = g.totalFiles + 1 ∧
        g'.totalSize = g.totalSize + (m.fileSize : Int)) ∧
    (∃ f ∈ db'.files, f.groupId = gid ∧ f.serialNumber = serial ∧
      f.fileSize = m.fileSize ∧ f.uniqueId = m.uniqueId) ∧
    inSameBlock uploadStmtBlocks .selectNextSerial .insertFileRow ∧
    inSameBlock uploadStmtBlocks .insertFileRow .updateGroupStatsAdd := by
  rw [uploadTx, uploadInsertPhase] at hok
  split at hok
  · exact absurd hok (by simp [Except.map])
  · split at hok
    · exact absurd hok (by simp [Except.map])
    · split at hok
      · exact absurd hok (by simp [Except.map])
      · simp only [Except.map, Except.ok.injEq, Prod.mk.injEq] at hok
        obtain ⟨hdb, hserial⟩ := hok
        refine ⟨?_, ?_, ?_, ?_, ?_, ?_⟩
        · intro hemp
          rw [← hserial, nextSerial]
          rw [rowsIn] at hemp
          rw [hemp]
          rfl
        · intro hne
          set L := (rowsIn db.files gid).map (fun f => f.serialNumber) with hL
          have hLne : L ≠ [] := by
            simp only [hL, ne_eq, List.map_eq_nil_iff]
            exact hne
          have hchar := le_foldl_max L 0
          have hmem := foldl_max_mem L 0
          have hmem' : L.foldl max 0 ∈ L := by
            rcases hmem with h0 | hm
            · obtain ⟨y, hy⟩ := List.exists_mem_of_ne_nil L hLne
              have := hchar.2 y hy
              rw [h0] at this
              have : y = 0 := Nat.le_zero.mp this
              rw [h0, ← this]
              exact hy
            · exact hm
          refine ⟨L.foldl max 0, hmem', hchar.2, ?_⟩
          rw [← hserial, nextSerial]
          rfl
        · intro g hg hgid
          have hmem : ({ g with
              totalFiles := g.totalFiles + 1,
              totalSize := g.totalSize + (m.fileSize : Int) } : GroupRow) ∈ db'.groups := by
            rw [← hdb]
            simp only [List.mem_map]
            exact ⟨g, hg, by rw [if_pos hgid]⟩
          exact ⟨_, hmem, hgid, rfl, rfl⟩
        · refine ⟨⟨db.nextFileId, gid, serial, m.uniqueId, m.fileName, m.fileType,
            m.fileSize, m.uploaderId, msgId⟩, ?_, rfl, rfl, rfl, rfl⟩
          rw [← hdb, ← hserial]
          simp
        · exact ⟨[.selectNextSerial, .insertFileRow, .updateGroupStatsAdd], by simp [uploadStmtBlocks], by simp, by simp⟩
        · exact ⟨[.selectNextSerial, .insertFileRow, .updateGroupStatsAdd], by simp [uploadStmtBlocks], by simp, by simp⟩

/-! ## Invariant preservation -/
lemma fileGroupJoin_mem {db : DB} {o : Nat} {n : String} {s : Nat}
    {f : FileRow} {g : GroupRow} (hm : (f, g) ∈ fileGroupJoin db o n s) :
    f ∈ db.files ∧ g ∈ db.groups ∧ f.groupId = g.id ∧ g.ownerId = o ∧
      g.name = n ∧ f.serialNumber = s := by
  simp only [fileGroupJoin, List.mem_flatMap, List.mem_map, List.mem_filter] at hm
  obtain ⟨f₀, hf₀, g₀, ⟨hg₀, hcond⟩, heq⟩ := hm
  obtain ⟨rfl, rfl⟩ := Prod.mk.injEq .. ▸ heq
  simp only [decide_eq_true_eq] at hcond
  exact ⟨hf₀, hg₀, hcond.1, hcond.2.1, hcond.2.2.1, hcond.2.2.2⟩

lemma map_update_ids {α β : Type} (l : List α) (F : α → α) (idf : α → β)
    (hF : ∀ a, idf (F a) = idf a) :
    (l.map F).map idf = l.map idf := by
  rw [List.map_map]
  exact List.map_congr_left (fun a _ => hF a)

lemma inv_createGroupTx {db db' : DB} {o : Nat} {n : String} (h : Inv db)
    (hok : createGroupTx db o n = .ok db') : Inv db' := by
  rw [createGroupTx] at hok
  split at hok
  · exact absurd hok (by simp)
  split at hok
  · exact absurd hok (by simp)
  simp only [Except.ok.injEq] at hok
  subst hok
  have hfresh : ∀ g ∈ db.groups, g.id ≠ db.nextGroupId :=
    fun g hg => Nat.ne_of_lt (h.groupIdLt g hg)
  constructor
  · intro g hg
    simp only [List.mem_append, List.mem_cons, List.not_mem_nil, or_false] at hg
    rcases hg with hg | rfl
    · exact Nat.lt_succ_of_lt (h.groupIdLt g hg)
    · exact Nat.lt_succ_self _
  · rw [List.map_append, List.nodup_append]
    refine ⟨h.groupIdNodup, by simp, ?_⟩
    intro x hx hx'
    simp only [List.mem_map] at hx
    obtain ⟨g, hg, rfl⟩ := hx
    simp only [List.map_cons, List.map_nil, List.mem_cons, List.not_mem_nil, or_false] at hx'
    exact hfresh g hg hx'
  · exact h.fileIdLt
  · exact h.fileIdNodup
  · intro f hf
    obtain ⟨g, hg, hid⟩ := h.fileFk f hf
    exact ⟨g, List.mem_append_left _ hg, hid⟩
  · exact h.linkIdLt
  · exact h.linkIdNodup
  · exact h.linkCodeNodup
  · exact h.linkFileFk
  · intro l hl i hi
    obtain ⟨g, hg, hid⟩ := h.linkGroupFk l hl i hi
    exact ⟨g, List.mem_append_left _ hg, hid⟩
  · exact h.linkTyped
  · intro g hg
    simp only [List.mem_append, List.mem_cons, List.not_mem_nil, or_false] at hg
    rcases hg with hg | rfl
    · exact h.counters g hg
    · have hempty : rowsIn db.files db.nextGroupId = [] := by
        rw [rowsIn, List.filter_eq_nil_iff]
        intro f hf
        simp only [decide_eq_true_eq]
        intro he
        obtain ⟨g₀, hg₀, hid⟩ := h.fileFk f hf
        exact hfresh g₀ hg₀ (hid.trans he)
      constructor
      · show (0 : Int) = (countIn db.files db.nextGroupId : Int)
        rw [countIn, hempty]
        rfl
      · show (0 : Int) = sumIn db.files db.nextGroupId
        rw [sumIn, hempty]
        rfl

lemma inv_uploadTx {db db' : DB} {gid : Nat} {m : FileMeta} {msgId serial : Nat}
    (h : Inv db) (hok : uploadTx db gid m msgId = .ok (db', serial)) : Inv db' := by
  rw [uploadTx, uploadInsertPhase] at hok
  split at hok
  · exact absurd hok (by simp [Except.map])
  next hg =>
  split at hok
  · exact absurd hok (by simp [Except.map])
  split at hok
  · exact absurd hok (by simp [Except.map])
  simp only [Except.map, Except.ok.injEq, Prod.mk.injEq] at hok
  obtain ⟨hdb, hserial⟩ := hok
  subst hdb
  rw [not_not, List.any_eq_true] at hg
  obtain ⟨gex, hgex, hgexid⟩ := hg
  rw [decide_eq_true_eq] at hgexid
  have hFid : ∀ g : GroupRow,
      (if g.id = gid then
        { g with totalFiles := g.totalFiles + 1,
                 totalSize := g.totalSize + (m.fileSize : Int) }
      else g).id = g.id := by
    intro g; split <;> rfl
  have hffresh : ∀ f ∈ db.files, f.id ≠ db.nextFileId :=
    fun f hf => Nat.ne_of_lt (h.fileIdLt f hf)
  constructor
  · intro g hg'
    simp only [List.mem_map] at hg'
    obtain ⟨g₀, hg₀, rfl⟩ := hg'
    rw [hFid g₀]
    exact h.groupIdLt g₀ hg₀
  · rw [map_update_ids _ _ _ hFid]
    exact h.groupIdNodup
  · intro f hf
    simp only [List.mem_append, List.mem_cons, List.not_mem_nil, or_false] at hf
    rcases hf with hf | rfl
    · exact Nat.lt_succ_of_lt (h.fileIdLt f hf)
    · exact Nat.lt_succ_self _
  · rw [List.map_append, List.nodup_append]
    refine ⟨h.fileIdNodup, by simp, ?_⟩
    intro x hx hx'
    simp only [List.mem_map] at hx
    obtain ⟨f, hf, rfl⟩ := hx
    simp only [List.map_cons, List.map_nil, List.mem_cons, List.not_mem_nil, or_false] at hx'
    exact hffresh f hf hx'
  · intro f hf
    simp only [List.mem_append, List.mem_cons, List.not_mem_nil, or_false] at hf
    rcases hf with hf | rfl
    · obtain ⟨g, hg', hid⟩ := h.fileFk f hf
      exact ⟨_, List.mem_map_of_mem _ hg', by rw [hFid g, hid]⟩
    · exact ⟨_, List.mem_map_of_mem _ hgex, by rw [hFid gex, hgexid]⟩
  · exact h.linkIdLt
  · exact h.linkIdNodup
  · exact h.linkCodeNodup
  · intro l hl i hi
    obtain ⟨f, hf, hid⟩ := h.linkFileFk l hl i hi
    exact ⟨f, List.mem_append_left _ hf, hid⟩
  · intro l hl i hi
    obtain ⟨g, hg', hid⟩ := h.linkGroupFk l hl i hi
    exact ⟨_, List.mem_map_of_mem _ hg', by rw [hFid g, hid]⟩
  · exact h.linkTyped
  · intro g hg'
    simp only [List.mem_map] at hg'
    obtain ⟨g₀, hg₀, rfl⟩ := hg'
    obtain ⟨hcnt, hsum⟩ := h.counters g₀ hg₀
    by_cases hc : g₀.id = gid
    · simp only [hFid g₀, if_pos hc, if_pos hc.symm, countIn_append, countIn_single,
        sumIn_append, sumIn_single]
      constructor
      · rw [hcnt]
        push_cast
        ring
      · rw [hsum]
    · simp only [hFid g₀, if_neg hc, if_neg (fun he => hc (Eq.symm he)),
        countIn_append, countIn_single, sumIn_append, sumIn_single,
        Nat.add_zero, add_zero]
      exact ⟨hcnt, hsum⟩

lemma inv_fileDeleteTx {db : DB} (h : Inv db) (o : Nat) (n : String) (s : Nat) :
    Inv (fileDeleteTx db o n s) := by
  rw [fileDeleteTx]
  cases hhead : (fileGroupJoin db o n s).head? with
  | none => exact h
  | some fg =>
    obtain ⟨f, g⟩ := fg
    obtain ⟨hfmem, hgmem, hfg, hgo, hgn, hfs⟩ :=
      fileGroupJoin_mem (mem_of_head?_eq hhead)
    have hFid : ∀ x : GroupRow,
        (if x.id = g.id then
          { x with totalFiles := x.totalFiles - 1,
                   totalSize := x.totalSize - (f.fileSize : Int) }
        else x).id = x.id := by
      intro x; split <;> rfl
    have hfilter : db.files.filter (fun x => ¬ x.id = f.id) = db.files.erase f :=
      filter_ne_id_eq_erase h.fileIdNodup hfmem
    have hfsub : (db.files.filter (fun x => ¬ x.id = f.id)).Sublist db.files :=
      List.filter_sublist db.files
    have hlsub : (db.links.filter (fun l => ¬ l.fileId = some f.id)).Sublist db.links :=
      List.filter_sublist db.links
    constructor
    · intro x hx
      simp only [List.mem_map] at hx
      obtain ⟨x₀, hx₀, rfl⟩ := hx
      rw [hFid x₀]
      exact h.groupIdLt x₀ hx₀
    · rw [map_update_ids _ _ _ hFid]
      exact h.groupIdNodup
    · intro x hx
      exact h.fileIdLt x (hfsub.mem hx)
    · exact (hfsub.map _).nodup h.fileIdNodup
    · intro x hx
      obtain ⟨g₀, hg₀, hid⟩ := h.fileFk x (hfsub.mem hx)
      exact ⟨_, List.mem_map_of_mem _ hg₀, by rw [hFid g₀, hid]⟩
    · intro l hl
      exact h.linkIdLt l (hlsub.mem hl)
    · exact (hlsub.map _).nodup h.linkIdNodup
    · exact (hlsub.map _).nodup h.linkCodeNodup
    · intro l hl i hi
      have hkept := (List.mem_filter.mp hl).2
      simp only [decide_eq_true_eq] at hkept
      obtain ⟨f₀, hf₀, hfid⟩ := h.linkFileFk l ((List.filter_sublist _).mem hl) i hi
      refine ⟨f₀, List.mem_filter.mpr ⟨hf₀, ?_⟩, hfid⟩
      simp only [decide_eq_true_eq]
      intro he
      exact hkept (by rw [hi, ← hfid, he])
    · intro l hl i hi
      obtain ⟨g₀, hg₀, hid⟩ := h.linkGroupFk l ((List.filter_sublist _).mem hl) i hi
      exact ⟨_, List.mem_map_of_mem _ hg₀, by rw [hFid g₀, hid]⟩
    · intro l hl
      exact h.linkTyped l ((List.filter_sublist _).mem hl)
    · intro x hx
      simp only [List.mem_map] at hx
      obtain ⟨x₀, hx₀, rfl⟩ := hx
      obtain ⟨hcnt, hsum⟩ := h.counters x₀ hx₀
      have hcnt' := countIn_erase hfmem x₀.id
      have hsum' := sumIn_erase hfmem x₀.id
      by_cases hc : x₀.id = g.id
      · have hfg' : f.groupId = x₀.id := by rw [hfg, hc]
        simp only [hFid x₀, if_pos hc, hfilter]
        rw [if_pos hfg'] at hcnt' hsum'
        constructor
        · rw [hcnt, hcnt']
          push_cast
          ring
        · rw [hsum, hsum']
          ring
      · have hfg' : ¬ f.groupId = x₀.id := by rw [hfg]; exact fun he => hc he.symm
        simp only [hFid x₀, if_neg hc, hfilter]
        rw [if_neg hfg'] at hcnt' hsum'
        simp only [zero_add] at hcnt' hsum'
        rw [← hcnt', ← hsum']
        exact ⟨hcnt, hsum⟩

/-- Filtering out rows of other groups leaves a group's own rows unchanged. -/
lemma rowsIn_filter_keep (l : List FileRow) (gids : List Nat) (g : Nat)
    (hg : g ∉ gids) :
    rowsIn (l.filter (fun f => ¬ f.groupId ∈ gids)) g = rowsIn l g := by
  rw [rowsIn, rowsIn, List.filter_filter]
  refine List.filter_congr ?_
  intro x _
  by_cases hx : x.groupId = g
  · simp [hx, hg]
  · simp [hx]

lemma inv_groupDeleteTx {db : DB} (h : Inv db) (o : Nat) (n : String) :
    Inv (groupDeleteTx db o n).1 := by
  rw [groupDeleteTx]
  set gids := (db.groups.filter (fun g => g.ownerId = o ∧ g.name = n)).map
    (fun g => g.id) with hgids
  set removedFiles := db.files.filter (fun f => f.groupId ∈ gids) with hremoved
  have hgsub : (db.groups.filter (fun g => ¬ (g.ownerId = o ∧ g.name = n))).Sublist
      db.groups := List.filter_sublist db.groups
  have hfsub : (db.files.filter (fun f => ¬ f.groupId ∈ gids)).Sublist db.files :=
    List.filter_sublist db.files
  have hlsub : (db.links.filter (fun l => ¬ ((∃ gid ∈ gids, l.groupId = some gid) ∨
      ∃ f ∈ removedFiles, l.fileId = some f.id))).Sublist db.links :=
    List.filter_sublist db.links
  -- members of gids are ids of deleted (matching) groups
  have hgids_mem : ∀ i ∈ gids, ∃ gm ∈ db.groups, gm.id = i ∧ gm.ownerId = o ∧ gm.name = n := by
    intro i hi
    rw [hgids] at hi
    simp only [List.mem_map, List.mem_filter, decide_eq_true_eq] at hi
    obtain ⟨gm, ⟨hgm, hcond⟩, rfl⟩ := hi
    exact ⟨gm, hgm, rfl, hcond.1, hcond.2⟩
  -- a surviving group's id is not among the deleted ids
  have hsurvive : ∀ g ∈ db.groups.filter (fun g => ¬ (g.ownerId = o ∧ g.name = n)),
      g.id ∉ gids := by
    intro g hg hin
    obtain ⟨gm, hgm, hid, hgo, hgn⟩ := hgids_mem g.id hin
    have := List.inj_on_of_nodup_map h.groupIdNodup hgm (hgsub.mem hg) hid
    rw [List.mem_filter] at hg
    have hcond := hg.2
    simp only [decide_eq_true_eq] at hcond
    exact hcond (this ▸ ⟨hgo, hgn⟩)
  constructor
  · intro g hg
    exact h.groupIdLt g (hgsub.mem hg)
  · exact (hgsub.map _).nodup h.groupIdNodup
  · intro f hf
    exact h.fileIdLt f (hfsub.mem hf)
  · exact (hfsub.map _).nodup h.fileIdNodup
  · intro f hf
    have hfk := (List.mem_filter.mp hf).2
    simp only [decide_eq_true_eq] at hfk
    obtain ⟨g₀, hg₀, hid⟩ := h.fileFk f (hfsub.mem hf)
    refine ⟨g₀, List.mem_filter.mpr ⟨hg₀, ?_⟩, hid⟩
    simp only [decide_eq_true_eq]
    intro hcond
    apply hfk
    rw [hgids]
    simp only [List.mem_map, List.mem_filter, decide_eq_true_eq]
    exact ⟨g₀, ⟨hg₀, hcond⟩, hid⟩
  · intro l hl
    exact h.linkIdLt l (hlsub.mem hl)
  · exact (hlsub.map _).nodup h.linkIdNodup
  · exact (hlsub.map _).nodup h.linkCodeNodup
  · intro l hl i hi
    have hkept := (List.mem_filter.mp hl).2
    simp only [decide_eq_true_eq, not_or, not_exists] at hkept
    obtain ⟨f₀, hf₀, hfid⟩ := h.linkFileFk l (hlsub.mem hl) i hi
    refine ⟨f₀, List.mem_filter.mpr ⟨hf₀, ?_⟩, hfid⟩
    simp only [decide_eq_true_eq]
    intro hin
    have hf₀rem : f₀ ∈ removedFiles := by
      rw [hremoved]
      exact List.mem_filter.mpr ⟨hf₀, by simpa using hin⟩
    have := hkept.2 f₀
    simp only [hf₀rem, true_and] at this
    exact this (by rw [hi, hfid])
  · intro l hl i hi
    have hkept := (List.mem_filter.mp hl).2
    simp only [decide_eq_true_eq, not_or, not_exists] at hkept
    obtain ⟨g₀, hg₀, hid⟩ := h.linkGroupFk l (hlsub.mem hl) i hi
    refine ⟨g₀, List.mem_filter.mpr ⟨hg₀, ?_⟩, hid⟩
    simp only [decide_eq_true_eq]
    intro hcond
    have hg₀in : g₀.id ∈ gids := by
      rw [hgids]
      simp only [List.mem_map, List.mem_filter, decide_eq_true_eq]
      exact ⟨g₀, ⟨hg₀, hcond⟩, rfl⟩
    have := hkept.1 g₀.id
    simp only [hg₀in, true_and] at this
    exact this (by rw [hi, hid])
  · intro l hl
    exact h.linkTyped l (hlsub.mem hl)
  · intro g hg
    obtain ⟨hcnt, hsum⟩ := h.counters g (hgsub.mem hg)
    have hkeep : rowsIn (db.files.filter (fun f => ¬ f.groupId ∈ gids)) g.id =
        rowsIn db.files g.id := rowsIn_filter_keep _ _ _ (hsurvive g hg)
    constructor
    · show g.totalFiles = (countIn _ g.id : Int)
      rw [countIn, hkeep, ← countIn]
      exact hcnt
    · show g.totalSize = sumIn _ g.id
      rw [sumIn, hkeep, ← sumIn]
      exact hsum

lemma inv_linkInsertTx {db db' : DB} {code : String} {fid gid : Option Nat}
    {t : LinkType} {o : Nat} (h : Inv db)
    (htf : t = LinkType.file → ∃ i, fid = some i)
    (htg : t = LinkType.group → ∃ i, gid = some i)
    (hok : linkInsertTx db code fid gid t o = .ok db') : Inv db' := by
  rw [linkInsertTx] at hok
  split at hok
  · exact absurd hok (by simp)
  next hcode =>
  split at hok
  · exact absurd hok (by simp)
  next hfk =>
  split at hok
  · exact absurd hok (by simp)
  next hgk =>
  simp only [Except.ok.injEq] at hok
  subst hok
  have hlfresh : ∀ l ∈ db.links, l.id ≠ db.nextLinkId :=
    fun l hl => Nat.ne_of_lt (h.linkIdLt l hl)
  constructor
  · exact h.groupIdLt
  · exact h.groupIdNodup
  · exact h.fileIdLt
  · exact h.fileIdNodup
  · exact h.fileFk
  · intro l hl
    simp only [List.mem_append, List.mem_cons, List.not_mem_nil, or_false] at hl
    rcases hl with hl | rfl
    · exact Nat.lt_succ_of_lt (h.linkIdLt l hl)
    · exact Nat.lt_succ_self _
  · rw [List.map_append, List.nodup_append]
    refine ⟨h.linkIdNodup, by simp, ?_⟩
    intro x hx hx'
    simp only [List.mem_map] at hx
    obtain ⟨l, hl, rfl⟩ := hx
    simp only [List.map_cons, List.map_nil, List.mem_cons, List.not_mem_nil, or_false] at hx'
    exact hlfresh l hl hx'
  · rw [List.map_append, List.nodup_append]
    refine ⟨h.linkCodeNodup, by simp, ?_⟩
    intro x hx hx'
    simp only [List.mem_map] at hx
    obtain ⟨l, hl, rfl⟩ := hx
    simp only [List.map_cons, List.map_nil, List.mem_cons, List.not_mem_nil, or_false] at hx'
    rw [List.any_eq_true] at hcode
    exact hcode ⟨l, hl, by simp [hx']⟩
  · intro l hl i hi
    simp only [List.mem_append, List.mem_cons, List.not_mem_nil, or_false] at hl
    rcases hl with hl | rfl
    · exact h.linkFileFk l hl i hi
    · simp only at hi
      subst hi
      simp only [Option.any_some, decide_eq_true_eq, not_not, List.any_eq_true] at hfk
      obtain ⟨f, hf, hfi⟩ := hfk
      exact ⟨f, hf, hfi⟩
  · intro l hl i hi
    simp only [List.mem_append, List.mem_cons, List.not_mem_nil, or_false] at hl
    rcases hl with hl | rfl
    · exact h.linkGroupFk l hl i hi
    · simp only at hi
      subst hi
      simp only [Option.any_some, decide_eq_true_eq, not_not, List.any_eq_true] at hgk
      obtain ⟨g, hg, hgi⟩ := hgk
      exact ⟨g, hg, hgi⟩
  · intro l hl
    simp only [List.mem_append, List.mem_cons, List.not_mem_nil, or_false] at hl
    rcases hl with hl | rfl
    · exact h.linkTyped l hl
    · exact ⟨fun ht => htf ht, fun ht => htg ht⟩
  · exact h.counters

lemma inv_fileLinkOp {db : DB} (h : Inv db) (code : String) (o : Nat) (n : String)
    (s : Nat) : Inv (fileLinkOp db code o n s) := by
  rw [fileLinkOp]
  cases hhead : (fileGroupJoin db o n s).head? with
  | none => exact h
  | some fg =>
    obtain ⟨f, g⟩ := fg
    show Inv (match linkInsertTx db code (some f.id) none .file o with
      | .ok db' => db'
      | .error _ => db)
    cases hins : linkInsertTx db code (some f.id) none .file o with
    | ok db' => exact inv_linkInsertTx h (fun _ => ⟨f.id, rfl⟩) (by simp) hins
    | error e => exact h

lemma inv_groupLinkOp {db : DB} (h : Inv db) (code : String) (o : Nat)
    (n : String) : Inv (groupLinkOp db code o n) := by
  rw [groupLinkOp]
  cases hfind : db.groups.find? (fun g => g.ownerId = o ∧ g.name = n) with
  | none => exact h
  | some g =>
    show Inv (match linkInsertTx db code none (some g.id) .group o with
      | .ok db' => db'
      | .error _ => db)
    cases hins : linkInsertTx db code none (some g.id) .group o with
    | ok db' => exact inv_linkInsertTx h (by simp) (fun _ => ⟨g.id, rfl⟩) hins
    | error e => exact h

lemma inv_revokeLinkTx {db : DB} (h : Inv db) (code : String) (o : Nat) :
    Inv (revokeLinkTx db code o) := by
  rw [revokeLinkTx]
  have hlsub : (db.links.filter (fun l => ¬ (l.linkCode = code ∧ l.ownerId = o))).Sublist
      db.links := List.filter_sublist db.links
  constructor
  · exact h.groupIdLt
  · exact h.groupIdNodup
  · exact h.fileIdLt
  · exact h.fileIdNodup
  · exact h.fileFk
  · intro l hl
    exact h.linkIdLt l (hlsub.mem hl)
  · exact (hlsub.map _).nodup h.linkIdNodup
  · exact (hlsub.map _).nodup h.linkCodeNodup
  · intro l hl i hi
    exact h.linkFileFk l (hlsub.mem hl) i hi
  · intro l hl i hi
    exact h.linkGroupFk l (hlsub.mem hl) i hi
  · intro l hl
    exact h.linkTyped l (hlsub.mem hl)
  · exact h.counters

lemma bump_id (lid : Nat) (a : LinkRow) :
    (if a.id = lid then { a with clicks := a.clicks + 1 } else a).id = a.id := by
  split <;> rfl

lemma bump_code (lid : Nat) (a : LinkRow) :
    (if a.id = lid then { a with clicks := a.clicks + 1 } else a).linkCode =
      a.linkCode := by
  split <;> rfl

lemma inv_bumpClicks {db : DB} (h : Inv db) (lid : Nat) : Inv (bumpClicks db lid) := by
  rw [bumpClicks]
  have hF : ∀ l : LinkRow,
      (if l.id = lid then { l with clicks := l.clicks + 1 } else l) =
        { l with clicks := (if l.id = lid then l.clicks + 1 else l.clicks) } := by
    intro l; split <;> rfl
  constructor
  · exact h.groupIdLt
  · exact h.groupIdNodup
  · exact h.fileIdLt
  · exact h.fileIdNodup
  · exact h.fileFk
  · intro l hl
    simp only [List.mem_map] at hl
    obtain ⟨l₀, hl₀, rfl⟩ := hl
    rw [hF l₀]
    exact h.linkIdLt l₀ hl₀
  · show ((db.links.map (fun l =>
        if l.id = lid then { l with clicks := l.clicks + 1 } else l)).map
        (fun l => l.id)).Nodup
    rw [map_update_ids _ _ _ (bump_id lid)]
    exact h.linkIdNodup
  · show ((db.links.map (fun l =>
        if l.id = lid then { l with clicks := l.clicks + 1 } else l)).map
        (fun l => l.linkCode)).Nodup
    rw [map_update_ids _ _ _ (bump_code lid)]
    exact h.linkCodeNodup
  · intro l hl i hi
    simp only [List.mem_map] at hl
    obtain ⟨l₀, hl₀, rfl⟩ := hl
    rw [hF l₀] at hi
    exact h.linkFileFk l₀ hl₀ i hi
  · intro l hl i hi
    simp only [List.mem_map] at hl
    obtain ⟨l₀, hl₀, rfl⟩ := hl
    rw [hF l₀] at hi
    exact h.linkGroupFk l₀ hl₀ i hi
  · intro l hl
    simp only [List.mem_map] at hl
    obtain ⟨l₀, hl₀, rfl⟩ := hl
    rw [hF l₀]
    exact h.linkTyped l₀ hl₀
  · exact h.counters

lemma resolveLink_fst (db : DB) (code : String) :
    (resolveLink db code).1 = db ∨
      ∃ l, findActiveLink db code = some l ∧
        (resolveLink db code).1 = bumpClicks db l.id := by
  rw [resolveLink]
  cases hfind : findActiveLink db code with
  | none => exact Or.inl rfl
  | some l =>
    refine Or.inr ⟨l, rfl, ?_⟩
    show (match l.linkType with
      | LinkType.file =>
        match fileTargetLookup (bumpClicks db l.id) l with
        | some f => (bumpClicks db l.id, Resolved.fileDesc f)
        | none => (bumpClicks db l.id, Resolved.fileMissing)
      | LinkType.group => (bumpClicks db l.id, Resolved.groupDesc
          (groupFilesLookup (bumpClicks db l.id) l))).1 = bumpClicks db l.id
    split
    · split <;> rfl
    · rfl

lemma inv_applyOp {db : DB} (h : Inv db) (op : Op) : Inv (applyOp db op) := by
  cases op with
  | createGroup o n =>
    rw [applyOp]
    cases hop : createGroupTx db o n with
    | ok db' => exact inv_createGroupTx h hop
    | error e => exact h
  | upload gid m msg =>
    rw [applyOp]
    cases hop : uploadTx db gid m msg with
    | ok p =>
      obtain ⟨db', s⟩ := p
      exact inv_uploadTx h hop
    | error e => exact h
  | deleteFile o n s => exact inv_fileDeleteTx h o n s
  | deleteGroup o n => exact inv_groupDeleteTx h o n
  | fileLink c o n s => exact inv_fileLinkOp h c o n s
  | groupLink c o n => exact inv_groupLinkOp h c o n
  | revoke c o => exact inv_revokeLinkTx h c o
  | resolve c =>
    rw [applyOp]
    rcases resolveLink_fst db c with he | ⟨l, _, he⟩
    · rw [he]; exact h
    · rw [he]; exact inv_bumpClicks h l.id

lemma inv_runOps {db : DB} (h : Inv db) (ops : List Op) : Inv (runOps db ops) := by
  induction ops generalizing db with
  | nil => exact h
  | cons op rest ih => exact ih (inv_applyOp h op)

lemma inv_emptyDB : Inv emptyDB := by
  constructor <;> simp [emptyDB]

/-- Claim C2: in every state reachable by any sequence of operations from the
empty store, each group's total_files equals the count of its file rows and
its total_size the sum of their sizes; the counter update shares one
transaction with the file INSERT, and likewise with the file DELETE. -/
theorem claim_C2_aggregate_invariant : ∀ ops : List Op,
    (∀ g ∈ (runOps emptyDB ops).groups,
      g.totalFiles = (countIn (runOps emptyDB ops).files g.id : Int) ∧
        g.totalSize = sumIn (runOps emptyDB ops).files g.id) ∧
    inSameBlock uploadStmtBlocks .insertFileRow .updateGroupStatsAdd ∧
    inSameBlock fileDeleteStmtBlocks .deleteFileRow .updateGroupStatsSub := by
  intro ops
  refine ⟨(inv_runOps inv_emptyDB ops).counters, ?_, ?_⟩
  · exact ⟨[.selectNextSerial, .insertFileRow, .updateGroupStatsAdd],
      by simp [uploadStmtBlocks], by simp, by simp⟩
  · exact ⟨[.selectFileJoin, .deleteFileRow, .updateGroupStatsSub],
      by simp [fileDeleteStmtBlocks], by simp, by simp⟩

/-- Witness for claim C2: create a group, insert two files, delete one; the
surviving group row carries total_files 1 and total_size 20, matching its
single remaining 20-byte file row. -/
theorem claim_C2_aggregate_invariant_witness :
    (⟨1, "g", 1, 1, 20⟩ : GroupRow) ∈
      (runOps emptyDB [.createGroup 1 "g", .upload 1 metaA 100,
        .upload 1 metaB 101, .deleteFile 1 "g" 1]).groups ∧
    ((⟨1, "g", 1, 1, 20⟩ : GroupRow).totalFiles =
      (countIn (runOps emptyDB [.createGroup 1 "g", .upload 1 metaA 100,
        .upload 1 metaB 101, .deleteFile 1 "g" 1]).files
        (⟨1, "g", 1, 1, 20⟩ : GroupRow).id : Int) ∧
     (⟨1, "g", 1, 1, 20⟩ : GroupRow).totalSize =
      sumIn (runOps emptyDB [.createGroup 1 "g", .upload 1 metaA 100,
        .upload 1 metaB 101, .deleteFile 1 "g" 1]).files
        (⟨1, "g", 1, 1, 20⟩ : GroupRow).id) :=
  ⟨by decide,
    (claim_C2_aggregate_invariant [.createGroup 1 "g", .upload 1 metaA 100,
      .upload 1 metaB 101, .deleteFile 1 "g" 1]).1 _ (by decide)⟩

/-- Claim C8: in every reachable state each link's non-null file_id and
group_id reference existing rows (ON DELETE CASCADE keeps this across file
and group deletions), and a link removed by a group deletion's cascade
resolves to NotFound afterwards. -/
theorem claim_C8_cascade_integrity : ∀ (ops : List Op) (o : Nat) (n : String),
    (∀ l ∈ (runOps emptyDB ops).links,
      (∀ i, l.fileId = some i → ∃ f ∈ (runOps emptyDB ops).files, f.id = i) ∧
        (∀ i, l.groupId = some i → ∃ g ∈ (runOps emptyDB ops).groups, g.id = i)) ∧
    (∀ l ∈ (runOps emptyDB ops).links,
      l ∉ ((groupDeleteTx (runOps emptyDB ops) o n).1).links →
        resolveLink ((groupDeleteTx (runOps emptyDB ops) o n).1) l.linkCode =
          (((groupDeleteTx (runOps emptyDB ops) o n).1), .notFound)) := by
  intro ops o n
  have hinv := inv_runOps inv_emptyDB ops
  constructor
  · intro l hl
    exact ⟨hinv.linkFileFk l hl, hinv.linkGroupFk l hl⟩
  · intro l hl hl'
    have hsub : ((groupDeleteTx (runOps emptyDB ops) o n).1).links.Sublist
        (runOps emptyDB ops).links := List.filter_sublist _
    have hnone : findActiveLink ((groupDeleteTx (runOps emptyDB ops) o n).1)
        l.linkCode = none := by
      rw [findActiveLink, List.find?_eq_none]
      intro x hx hpred
      simp only [decide_eq_true_eq] at hpred
      have hxmem : x ∈ (runOps emptyDB ops).links := hsub.mem hx
      have : x = l :=
        List.inj_on_of_nodup_map hinv.linkCodeNodup hxmem hl hpred.1
      exact hl' (this ▸ hx)
    rw [resolveLink, hnone]

/-- Witness for claim C8: create a group, issue a group link, delete the
group; the link row is gone and its code resolves to NotFound. -/
theorem claim_C8_cascade_integrity_witness :
    (⟨1, "c", none, some 1, .group, 1, 0, true⟩ : LinkRow) ∈
      (runOps emptyDB [.createGroup 1 "g", .groupLink "c" 1 "g"]).links ∧
    (⟨1, "c", none, some 1, .group, 1, 0, true⟩ : LinkRow) ∉
      ((groupDeleteTx (runOps emptyDB [.createGroup 1 "g", .groupLink "c" 1 "g"])
        1 "g").1).links ∧
    resolveLink ((groupDeleteTx
        (runOps emptyDB [.createGroup 1 "g", .groupLink "c" 1 "g"]) 1 "g").1)
        "c" =
      (((groupDeleteTx (runOps emptyDB [.createGroup 1 "g", .groupLink "c" 1 "g"])
        1 "g").1), .notFound) :=
  ⟨by decide, by decide,
    (claim_C8_cascade_integrity [.createGroup 1 "g", .groupLink "c" 1 "g"]
      1 "g").2 ⟨1, "c", none, some 1, .group, 1, 0, true⟩ (by decide) (by decide)⟩

lemma addClicksK_id (lid : Nat) (k : Int) (x : LinkRow) :
    (addClicksK lid k x).id = x.id := by
  rw [addClicksK]; split <;> rfl

lemma addClicksK_code (lid : Nat) (k : Int) (x : LinkRow) :
    (addClicksK lid k x).linkCode = x.linkCode := by
  rw [addClicksK]; split <;> rfl

lemma addClicksK_active (lid : Nat) (k : Int) (x : LinkRow) :
    (addClicksK lid k x).isActive = x.isActive := by
  rw [addClicksK]; split <;> rfl

lemma map_addClicksK_comp (lid : Nat) (a b : Int) (L : List LinkRow) :
    (L.map (addClicksK lid b)).map (addClicksK lid a) =
      L.map (addClicksK lid (b + a)) := by
  rw [List.map_map]
  refine List.map_congr_left ?_
  intro x _
  show addClicksK lid a (addClicksK lid b x) = addClicksK lid (b + a) x
  by_cases h : x.id = lid
  · simp only [addClicksK, if_pos h, add_assoc]
  · simp only [addClicksK, if_neg h]

lemma bumpClicks_links (db : DB) (lid : Nat) :
    (bumpClicks db lid).links = db.links.map (addClicksK lid 1) := by
  rw [bumpClicks]
  refine List.map_congr_left ?_
  intro x _
  by_cases h : x.id = lid
  · simp only [addClicksK, if_pos h]
  · simp only [addClicksK, if_neg h]

lemma find?_active_map (L : List LinkRow) (code : String) (lid : Nat) (k : Int) :
    List.find? (fun l => l.linkCode = code ∧ l.isActive) (L.map (addClicksK lid k)) =
      (List.find? (fun l => l.linkCode = code ∧ l.isActive) L).map (addClicksK lid k) := by
  rw [List.find?_map]
  have hp : ((fun l : LinkRow => decide (l.linkCode = code ∧ l.isActive)) ∘
      addClicksK lid k) = fun l : LinkRow => decide (l.linkCode = code ∧ l.isActive) := by
    funext x
    simp only [Function.comp_apply, addClicksK_code, addClicksK_active]
  rw [hp]

lemma find?_id_map (L : List LinkRow) (lid : Nat) (k : Int) (j : Nat) :
    List.find? (fun l => l.id = j) (L.map (addClicksK lid k)) =
      (List.find? (fun l => l.id = j) L).map (addClicksK lid k) := by
  rw [List.find?_map]
  have hp : ((fun l : LinkRow => decide (l.id = j)) ∘ addClicksK lid k) =
      fun l : LinkRow => decide (l.id = j) := by
    funext x
    simp only [Function.comp_apply, addClicksK_id]
  rw [hp]

/-- Reading the clicks of row lid after k accumulated updates. -/
lemma clicksOf_links_map {base db : DB} {lid : Nat} {k : Int}
    (hL : db.links = base.links.map (addClicksK lid k))
    (hex : ∃ x ∈ base.links, x.id = lid) :
    clicksOf db lid = clicksOf base lid + k := by
  rw [clicksOf, clicksOf, hL, find?_id_map]
  have hsome : (List.find? (fun l => l.id = lid) base.links).isSome := by
    rw [List.find?_isSome]
    obtain ⟨x, hx, hid⟩ := hex
    exact ⟨x, hx, by simp [hid]⟩
  cases hfind : List.find? (fun l => l.id = lid) base.links with
  | none => rw [hfind] at hsome; simp at hsome
  | some x =>
    have hxid : x.id = lid := by
      have := List.find?_some hfind
      simpa using this
    simp [addClicksK, hxid]

/-- Reading the clicks of any other row is unaffected. -/
lemma clicksOf_links_map_other {base db : DB} {lid : Nat} {k : Int} {j : Nat}
    (hL : db.links = base.links.map (addClicksK lid k)) (hj : j ≠ lid) :
    clicksOf db j = clicksOf base j := by
  rw [clicksOf, clicksOf, hL, find?_id_map]
  cases hfind : List.find? (fun l => l.id = j) base.links with
  | none => rfl
  | some x =>
    have hxid : x.id = j := by
      have := List.find?_some hfind
      simpa using this
    simp [addClicksK, hxid, hj]

/-- One resolver step preserves the accumulated-updates picture. -/
lemma rstep_case {base : DB} {code : String} {l : LinkRow}
    (hfind : findActiveLink base code = some l) (db : DB) (p : RProc) (K : Int)
    (hlinks : db.links = base.links.map (addClicksK l.id K))
    (hw : wfP l.id p) :
    (rstep code db p).1.links = base.links.map (addClicksK l.id
      (K + ((cntOf (rstep code db p).2 : Int) - (cntOf p : Int)))) ∧
      wfP l.id (rstep code db p).2 := by
  obtain ⟨pc, tgt⟩ := p
  rcases hw with ⟨h0, ht⟩ | ⟨h1, h3, ht⟩
  · simp only at h0 ht
    subst h0
    subst ht
    have hdbfind : findActiveLink db code = some (addClicksK l.id K l) := by
      rw [findActiveLink, hlinks, find?_active_map]
      rw [findActiveLink] at hfind
      rw [hfind]
      rfl
    show (rstep code db ⟨0, none⟩).1.links = _ ∧ _
    rw [rstep]
    simp only [hdbfind]
    constructor
    · simp only [cntOf]
      norm_num
      exact hlinks
    · right
      refine ⟨by norm_num, by norm_num, ?_⟩
      simp [addClicksK_id]
  · simp only at h1 h3 ht
    subst ht
    interval_cases pc
    · show (rstep code db ⟨1, some l.id⟩).1.links = _ ∧ _
      rw [rstep]
      simp only
      constructor
      · rw [bumpClicks_links, hlinks, map_addClicksK_comp]
        simp only [cntOf]
        norm_num
      · right
        exact ⟨by norm_num, by norm_num, rfl⟩
    · show (rstep code db ⟨2, some l.id⟩).1.links = _ ∧ _
      rw [rstep]
      simp only
      constructor
      · simp only [cntOf]
        norm_num
        exact hlinks
      · right
        exact ⟨by norm_num, by norm_num, rfl⟩
    · show (rstep code db ⟨3, some l.id⟩).1.links = _ ∧ _
      rw [rstep]
      simp only
      constructor
      · simp only [cntOf]
        norm_num
        exact hlinks
      · right
        exact ⟨by norm_num, by norm_num, rfl⟩

/-- Any interleaving of two resolvers accumulates exactly the updates of the
processes that have passed their UPDATE statement. -/
lemma runTwo_invariant {base : DB} {code : String} {l : LinkRow}
    (hfind : findActiveLink base code = some l) :
    ∀ (sched : List Bool) (db : DB) (p1 p2 : RProc),
      db.links = base.links.map (addClicksK l.id ((cntOf p1 : Int) + (cntOf p2 : Int))) →
      wfP l.id p1 → wfP l.id p2 →
      (runTwo code db p1 p2 sched).1.links =
        base.links.map (addClicksK l.id
          ((cntOf (runTwo code db p1 p2 sched).2.1 : Int) +
            (cntOf (runTwo code db p1 p2 sched).2.2 : Int))) ∧
        wfP l.id (runTwo code db p1 p2 sched).2.1 ∧
        wfP l.id (runTwo code db p1 p2 sched).2.2 := by
  intro sched
  induction sched with
  | nil =>
    intro db p1 p2 hlinks hw1 hw2
    exact ⟨hlinks, hw1, hw2⟩
  | cons b rest ih =>
    intro db p1 p2 hlinks hw1 hw2
    cases b with
    | true =>
      obtain ⟨hstep, hwf⟩ := rstep_case hfind db p1
        ((cntOf p1 : Int) + (cntOf p2 : Int)) hlinks hw1
      have hstep' : (rstep code db p1).1.links = base.links.map (addClicksK l.id
          ((cntOf (rstep code db p1).2 : Int) + (cntOf p2 : Int))) := by
        rw [hstep]
        ring_nf
      show (runTwo code (rstep code db p1).1 (rstep code db p1).2 p2 rest).1.links = _ ∧ _
      exact ih (rstep code db p1).1 (rstep code db p1).2 p2 hstep' hwf hw2
    | false =>
      obtain ⟨hstep, hwf⟩ := rstep_case hfind db p2
        ((cntOf p1 : Int) + (cntOf p2 : Int)) hlinks hw2
      have hstep' : (rstep code db p2).1.links = base.links.map (addClicksK l.id
          ((cntOf p1 : Int) + (cntOf (rstep code db p2).2 : Int))) := by
        rw [hstep]
        ring_nf
      show (runTwo code (rstep code db p2).1 p1 (rstep code db p2).2 rest).1.links = _ ∧ _
      exact ih (rstep code db p2).1 p1 (rstep code db p2).2 hstep' hw1 hwf

lemma addClicksK_zero (lid : Nat) (x : LinkRow) : addClicksK lid 0 x = x := by
  rw [addClicksK]
  split <;> simp

lemma map_addClicksK_zero (lid : Nat) (L : List LinkRow) :
    L.map (addClicksK lid 0) = L := by
  rw [show L.map (addClicksK lid 0) = L.map id from
    List.map_congr_left (fun x _ => addClicksK_zero lid x)]
  exact List.map_id L

/-- Claim C6 (amended): resolving an absent or inactive code fails NotFound
with no state change; resolving an active link increments exactly that link's
clicks by one (via the single atomic UPDATE statement, each statement
auto-committing on its own rather than sharing one transaction) and returns
the target descriptor — the file row for a file link (given the target
reference the schema's FK guarantees), or the group's files ordered by serial
for a group link; and under any interleaving of two complete resolutions of
the same code the clicks counter gains exactly 2 — no update is lost. -/
theorem claim_C6_resolve_semantics :
    ∀ (db : DB) (code : String),
      (findActiveLink db code = none → resolveLink db code = (db, Resolved.notFound)) ∧
      (∀ l, findActiveLink db code = some l →
        (clicksOf (resolveLink db code).1 l.id = clicksOf db l.id + 1) ∧
        (∀ j, j ≠ l.id → clicksOf (resolveLink db code).1 j = clicksOf db j) ∧
        (l.linkType = LinkType.file → (∃ i, l.fileId = some i) →
          (∀ i, l.fileId = some i → ∃ f ∈ db.files, f.id = i) →
          ∃ f ∈ db.files, some f.id = l.fileId ∧
            (resolveLink db code).2 = Resolved.fileDesc f) ∧
        (l.linkType = LinkType.group →
          (resolveLink db code).2 = Resolved.groupDesc (groupFilesLookup db l)) ∧
        (∀ sched : List Bool,
          2 ≤ (runTwo code db ⟨0, none⟩ ⟨0, none⟩ sched).2.1.pc →
          2 ≤ (runTwo code db ⟨0, none⟩ ⟨0, none⟩ sched).2.2.pc →
          clicksOf (runTwo code db ⟨0, none⟩ ⟨0, none⟩ sched).1 l.id =
            clicksOf db l.id + 2)) := by
  intro db code
  constructor
  · intro hnone
    rw [resolveLink, hnone]
  · intro l hfind
    have hl_mem : l ∈ db.links := List.mem_of_find?_eq_some hfind
    have hfst : (resolveLink db code).1 = bumpClicks db l.id := by
      rw [resolveLink, hfind]
      show (match l.linkType with
        | LinkType.file =>
          match fileTargetLookup (bumpClicks db l.id) l with
          | some f => (bumpClicks db l.id, Resolved.fileDesc f)
          | none => (bumpClicks db l.id, Resolved.fileMissing)
        | LinkType.group => (bumpClicks db l.id, Resolved.groupDesc
            (groupFilesLookup (bumpClicks db l.id) l))).1 = bumpClicks db l.id
      split
      · split <;> rfl
      · rfl
    refine ⟨?_, ?_, ?_, ?_, ?_⟩
    · rw [hfst]
      exact clicksOf_links_map (bumpClicks_links db l.id) ⟨l, hl_mem, rfl⟩
    · intro j hj
      rw [hfst]
      exact clicksOf_links_map_other (bumpClicks_links db l.id) hj
    · intro hlt hex hfk
      obtain ⟨i, hi⟩ := hex
      obtain ⟨f₀, hf₀, hfid⟩ := hfk i hi
      cases hlk : fileTargetLookup db l with
      | none =>
        exfalso
        rw [fileTargetLookup, List.find?_eq_none] at hlk
        exact hlk f₀ hf₀ (by simp [hfid, hi])
      | some f =>
        have hfmem : f ∈ db.files := List.mem_of_find?_eq_some hlk
        have hfeq : some f.id = l.fileId := by
          have := List.find?_some hlk
          simpa using this
        refine ⟨f, hfmem, hfeq, ?_⟩
        rw [resolveLink, hfind]
        have hlk' : fileTargetLookup (bumpClicks db l.id) l = some f := hlk
        show (match l.linkType with
          | LinkType.file =>
            match fileTargetLookup (bumpClicks db l.id) l with
            | some f => (bumpClicks db l.id, Resolved.fileDesc f)
            | none => (bumpClicks db l.id, Resolved.fileMissing)
          | LinkType.group => (bumpClicks db l.id, Resolved.groupDesc
              (groupFilesLookup (bumpClicks db l.id) l))).2 = Resolved.fileDesc f
        rw [hlt, hlk']
    · intro hlt
      rw [resolveLink, hfind]
      show (match l.linkType with
        | LinkType.file =>
          match fileTargetLookup (bumpClicks db l.id) l with
          | some f => (bumpClicks db l.id, Resolved.fileDesc f)
          | none => (bumpClicks db l.id, Resolved.fileMissing)
        | LinkType.group => (bumpClicks db l.id, Resolved.groupDesc
            (groupFilesLookup (bumpClicks db l.id) l))).2 =
        Resolved.groupDesc (groupFilesLookup db l)
      rw [hlt]
      rfl
    · intro sched h1 h2
      have hinit : db.links = db.links.map (addClicksK l.id
          ((cntOf ⟨0, none⟩ : Int) + (cntOf ⟨0, none⟩ : Int))) := by
        have hc : (cntOf ⟨0, none⟩ : Int) = 0 := by
          simp [cntOf]
        rw [hc]
        norm_num
        exact (map_addClicksK_zero l.id db.links).symm
      obtain ⟨hlinks, hw1, hw2⟩ := runTwo_invariant hfind sched db ⟨0, none⟩ ⟨0, none⟩
        hinit (Or.inl ⟨rfl, rfl⟩) (Or.inl ⟨rfl, rfl⟩)
      have hc1 : cntOf (runTwo code db ⟨0, none⟩ ⟨0, none⟩ sched).2.1 = 1 := by
        rw [cntOf, if_pos h1]
      have hc2 : cntOf (runTwo code db ⟨0, none⟩ ⟨0, none⟩ sched).2.2 = 1 := by
        rw [cntOf, if_pos h2]
      rw [hc1, hc2] at hlinks
      have hfin : (runTwo code db ⟨0, none⟩ ⟨0, none⟩ sched).1.links =
          db.links.map (addClicksK l.id 2) := by
        rw [hlinks]
        norm_num
      exact clicksOf_links_map hfin ⟨l, hl_mem, rfl⟩

/-- Witness for claim C6: one active file link; resolving it bumps its clicks
from 0 to 1 and returns the file row, and a full interleaving of two
resolutions leaves clicks = 2. -/
theorem claim_C6_resolve_semantics_witness :
    findActiveLink linkDB "code123" =
      some ⟨1, "code123", some 7, none, .file, 1, 0, true⟩ ∧
    clicksOf (resolveLink linkDB "code123").1 1 = clicksOf linkDB 1 + 1 ∧
    (∃ f ∈ linkDB.files, some f.id =
        (⟨1, "code123", some 7, none, .file, 1, 0, true⟩ : LinkRow).fileId ∧
      (resolveLink linkDB "code123").2 = Resolved.fileDesc f) ∧
    clicksOf (runTwo "code123" linkDB ⟨0, none⟩ ⟨0, none⟩
      [true, true, true, false, false, false]).1 1 = clicksOf linkDB 1 + 2 := by
  have h := (claim_C6_resolve_semantics linkDB "code123").2
    ⟨1, "code123", some 7, none, .file, 1, 0, true⟩ (by decide)
  refine ⟨by decide, h.1, ?_, ?_⟩
  · refine h.2.2.1 rfl ⟨7, rfl⟩ ?_
    intro i hi
    obtain rfl : (7 : Nat) = i := by simpa using hi
    exact ⟨⟨7, 1, 1, "u", "n", "document", 5, 1, 50⟩, by decide, rfl⟩
  · exact h.2.2.2.2 [true, true, true, false, false, false] (by decide) (by decide)

/-- Claim C7: for any 16-byte (128-bit) random input, the issued code is
exactly 12 characters, all from the URL-safe base64 alphabet, with no '='
padding character. -/
theorem claim_C7_code_shape (bytes : List Nat) (hlen : bytes.length = 16)
    (hb : ∀ b ∈ bytes, b < 256) :
    (generate_id bytes).length = 12 ∧
      ∀ c ∈ generate_id bytes, c ∈ b64Alphabet ∧ c ≠ '=' :=
  generate_id_shape bytes hlen hb

/-- Witness for claim C7 at the all-zero 16-byte input. -/
theorem claim_C7_code_shape_witness :
    (List.replicate 16 0).length = 16 ∧
    (∀ b ∈ List.replicate 16 (0 : Nat), b < 256) ∧
    ((generate_id (List.replicate 16 0)).length = 12 ∧
      ∀ c ∈ generate_id (List.replicate 16 0), c ∈ b64Alphabet ∧ c ≠ '=') :=
  ⟨by decide, by decide, claim_C7_code_shape _ (by decide) (by decide)⟩

/-- Claim C10: with an upload group selected, a file larger than
MAX_FILE_SIZE is rejected by file_handler before the forward to the storage
channel and before the insert transaction: the store is unchanged and the
trace holds no forward attempt and no database write. -/
theorem claim_C10_size_gate :
    ∀ (outcomes : List ForwardOutcome) (db : DB) (gid : Nat) (m : FileMeta),
      MAX_FILE_SIZE < m.fileSize →
      fileHandler outcomes db (some gid) m = (db, []) ∧
      (fileHandler outcomes db (some gid) m).1 = db ∧
      UploadEv.forwardAttempt ∉ (fileHandler outcomes db (some gid) m).2 ∧
      UploadEv.dbWrite ∉ (fileHandler outcomes db (some gid) m).2 := by
  intro outcomes db gid m h
  have heq : fileHandler outcomes db (some gid) m = (db, []) := by
    rw [fileHandler]
    simp only [if_pos h]
  refine ⟨heq, by rw [heq], by rw [heq]; simp, by rw [heq]; simp⟩

/-- Witness for claim C10 at a file one byte over the 2 GB limit. -/
theorem claim_C10_size_gate_witness :
    MAX_FILE_SIZE < (⟨"u", "n", "document", 2000 * 1024 * 1024 + 1, 1⟩ : FileMeta).fileSize ∧
    fileHandler [] emptyDB (some 1) ⟨"u", "n", "document", 2000 * 1024 * 1024 + 1, 1⟩ =
      (emptyDB, []) :=
  ⟨by decide,
    (claim_C10_size_gate [] emptyDB 1 ⟨"u", "n", "document", 2000 * 1024 * 1024 + 1, 1⟩
      (by decide)).1⟩

/-- Witness for claim C5: the first upload into the empty group gets serial 1
and the counters move from (0, 0) to (1, 10). -/
theorem claim_C5_insert_serial_and_counters_witness :
    uploadTx oneGroupDB 1 metaA 100 = Except.ok (uploadedOneDB, 1) ∧
    (rowsIn oneGroupDB.files 1 = [] → (1 : Nat) = 1) ∧
    (∃ g' ∈ uploadedOneDB.groups, g'.id = 1 ∧
      g'.totalFiles = (⟨1, "Movies", 1, 0, 0⟩ : GroupRow).totalFiles + 1 ∧
      g'.totalSize = (⟨1, "Movies", 1, 0, 0⟩ : GroupRow).totalSize +
        (metaA.fileSize : Int)) ∧
    (∃ f ∈ uploadedOneDB.files, f.groupId = 1 ∧ f.serialNumber = 1 ∧
      f.fileSize = metaA.fileSize ∧ f.uniqueId = metaA.uniqueId) := by
  have h := claim_C5_insert_serial_and_counters oneGroupDB 1 metaA 100
    uploadedOneDB 1 (by rfl)
  exact ⟨by rfl, h.1, h.2.2.1 ⟨1, "Movies", 1, 0, 0⟩ (by decide) rfl,
    h.2.2.2.1⟩

end FileStore
